import Mathlib

/-!
Shallow embedding of the page-editing core of FileForge
(`src/src/components/pdf-editor.tsx`), together with proofs of the
behavioural properties of its store of page descriptors, its edit
operations, its crop-coordinate mapping and its save (materialization)
routine.

Modelling conventions:
* JavaScript numbers that hold page sizes and crop coordinates are
  modelled by `ℚ` (the arithmetic performed by the code is exact on the
  inputs of interest; floating-point rounding is out of scope).
* Rotation angles are modelled by `Int`; the JavaScript `%` operator on
  integers is truncated remainder, i.e. `Int.tmod`.
* The pdf-lib collaborator is out of scope of the repository; the live
  parsed document `pdfDoc` is modelled as a list of `DocPage` records.
  The code addresses pages of `pdfDoc` through
  `page.ref.tag?.pageNumber - 1`; following the code's own assumption,
  each `DocPage` carries that value in its `tag` field (the 0-based
  original page index), which `PDFDocument.load` initialises to the
  page's position and which page removal does not renumber.
* The transient busy flags `isProcessing` / `isLoadingPdf` only serialise
  the asynchronous operations and are always false between completed
  operations; they are not part of the state.  The `dataUrl` preview
  string of a page is presentational and omitted.
-/

namespace FileForge

/-- A document-space rectangle (origin bottom-left), as stored by
`page.setCropBox(x, y, width, height)` and in `PagePreview.cropBox`. -/
structure CropBoxRect where
  x : ℚ
  y : ℚ
  width : ℚ
  height : ℚ
  deriving DecidableEq

/-- One entry of the UI state array `pages` (interface `PagePreview` of
pdf-editor.tsx): `id` is the 0-based original index, `width`/`height`
the page size captured at load time, `rotation` the staged rotation and
`cropBox` the staged crop.  The `dataUrl` preview string is omitted. -/
structure PagePreview where
  id : Nat
  selected : Bool
  width : ℚ
  height : ℚ
  rotation : Int
  cropBox : Option CropBoxRect
  deriving DecidableEq

/-- One page of the live pdf-lib document held in the `pdfDoc` state.
`tag` models `page.ref.tag?.pageNumber - 1`, the 0-based original page
number the code uses to look pages up; `rotation` and `cropBox` are the
attributes the code writes through `setRotation` / `setCropBox`. -/
structure DocPage where
  tag : Nat
  rotation : Int
  cropBox : Option CropBoxRect
  deriving DecidableEq

/-- One page of the parsed original source, as reported by the document
collaborator at load time (`page.getSize()`, `page.getRotation().angle`). -/
structure SrcPage where
  width : ℚ
  height : ℚ
  rotation : Int
  deriving DecidableEq

/-- The `croppingPageInfo` state: which page a crop session targets
(`index` = current position in `pages`, `originalIndex` = original page
index) and the page size captured at load (`originalWidth/Height`).
The rendered `dataUrl` is omitted. -/
structure CroppingPageInfo where
  index : Nat
  originalIndex : Nat
  originalWidth : ℚ
  originalHeight : ℚ
  deriving DecidableEq

/-- A pixel rectangle on the rendered preview (`PixelCrop` of
react-image-crop, the `completedCrop` state): top-left origin. -/
structure PixelRect where
  x : ℚ
  y : ℚ
  width : ℚ
  height : ℚ
  deriving DecidableEq

/-- The editor's state: the parsed original source (`file`, never
reassigned by an edit), the `pages` descriptor array, the live parsed
`pdfDoc`, and the crop-session state `isCropping`/`croppingPageInfo`. -/
structure EditorState where
  src : List SrcPage
  pages : List PagePreview
  pdfDoc : List DocPage
  isCropping : Bool
  croppingPageInfo : Option CroppingPageInfo
  deriving DecidableEq

/-- A page produced by `saveChanges` in the new output document: the
content of source page `origIndex` (whose natural size is
`width`/`height`), with the descriptor's rotation and crop applied. -/
structure OutPage where
  origIndex : Nat
  width : ℚ
  height : ℚ
  rotation : Int
  cropBox : Option CropBoxRect
  deriving DecidableEq

/-- Direction argument of `movePage`. -/
inductive MoveDir where
  | left
  | right
  deriving DecidableEq

/-! ### List helpers

Small executable helpers that translate the JavaScript array idioms used
by the component (`map` with an index-equality test, `filter` with an
index-membership test, destructuring swap of two adjacent slots,
`findIndex` by tag followed by an in-place update, descending sort). -/

/-- Update the element at position `i`, leaving every other element
unchanged (translates `.map((p, j) => j === i ? f p : p)` and the
in-place array assignment `arr[i] = f arr[i]`). -/
def updAt (f : α → α) : Nat → List α → List α
  | _, [] => []
  | 0, a :: as => f a :: as
  | n + 1, a :: as => a :: updAt f n as

/-- Positions (0-based, ascending) of the selected pages, starting the
count at `k`; `selectedIndicesFrom 0` translates
`pages.map((p, i) => p.selected ? i : -1).filter(i => i !== -1)`. -/
def selectedIndicesFrom (k : Nat) : List PagePreview → List Nat
  | [] => []
  | p :: ps =>
    if p.selected then k :: selectedIndicesFrom (k + 1) ps
    else selectedIndicesFrom (k + 1) ps

/-- `getSelectedCurrentIndices` of pdf-editor.tsx. -/
def getSelectedCurrentIndices (pages : List PagePreview) : List Nat :=
  selectedIndicesFrom 0 pages

/-- Keep the elements whose position (counted from `k`) is not in `S`
(translates `.filter((_, index) => !S.includes(index))`). -/
def keepNotIdxFrom (S : List Nat) (k : Nat) : List α → List α
  | [] => []
  | a :: as =>
    if k ∈ S then keepNotIdxFrom S (k + 1) as
    else a :: keepNotIdxFrom S (k + 1) as

/-- Swap the two adjacent elements at positions `n` and `n + 1`
(translates the destructuring swap in `movePage`). -/
def swapAt : Nat → List α → List α
  | 0, a :: b :: rest => b :: a :: rest
  | n + 1, a :: rest => a :: swapAt n rest
  | _, l => l

/-- Insert into a descending-sorted list. -/
def insertDesc (a : Nat) : List Nat → List Nat
  | [] => [a]
  | b :: bs => if b ≤ a then a :: b :: bs else b :: insertDesc a bs

/-- Descending sort (translates `.sort((a, b) => b - a)`). -/
def sortDesc (l : List Nat) : List Nat :=
  l.foldr insertDesc []

/-- First page of the live document whose tag is `t` (translates
`pdfDoc.getPageIndices().findIndex(docIdx =>
(pdfDoc.getPage(docIdx).ref.tag?.pageNumber ?? 0) - 1 === t)` followed by
`pdfDoc.getPage(...)`). -/
def findTag (t : Nat) : List DocPage → Option DocPage
  | [] => none
  | q :: qs => if q.tag = t then some q else findTag t qs

/-- Remove the first page with tag `t` from the live document; if no
page matches, the document is unchanged (translates the find-then-
`removePage` step of `deleteSelectedPages`, which skips with a warning
when the lookup fails). -/
def eraseFirstTag (t : Nat) : List DocPage → List DocPage
  | [] => []
  | q :: qs => if q.tag = t then qs else q :: eraseFirstTag t qs

/-- Set the rotation of the first page with tag `t` to
`(its current rotation + angle) tmod 360` and return the updated
document together with the new rotation value; `none` when no page
matches (translates the find-then-`setRotation` step of
`rotateSelectedPages`, where JavaScript `%` is truncated remainder). -/
def rotTagFirst (t : Nat) (angle : Int) : List DocPage → Option (List DocPage × Int)
  | [] => none
  | q :: qs =>
    if q.tag = t then
      some (⟨q.tag, (q.rotation + angle).tmod 360, q.cropBox⟩ :: qs, (q.rotation + angle).tmod 360)
    else
      (rotTagFirst t angle qs).map fun r => (q :: r.1, r.2)

/-- Set the crop box of the first page with tag `t` (translates the
find-then-`setCropBox` step of `applyCrop`). -/
def setCropFirstTag (t : Nat) (r : CropBoxRect) : List DocPage → List DocPage
  | [] => []
  | q :: qs =>
    if q.tag = t then ⟨q.tag, q.rotation, some r⟩ :: qs
    else q :: setCropFirstTag t r qs

/-! ### The operations of pdf-editor.tsx -/

/-- `loadPdf`: descriptors built from the parsed source, one per page in
source order, `id = 0..N-1`, not selected, no crop (counter starts at `k`). -/
def loadPagesFrom (k : Nat) : List SrcPage → List PagePreview
  | [] => []
  | sp :: sps => ⟨k, false, sp.width, sp.height, sp.rotation, none⟩ :: loadPagesFrom (k + 1) sps

/-- The freshly loaded live document: one page per source page, tagged
with its original position, no crop set by this session. -/
def loadDocFrom (k : Nat) : List SrcPage → List DocPage
  | [] => []
  | sp :: sps => ⟨k, sp.rotation, none⟩ :: loadDocFrom (k + 1) sps

/-- State right after `loadPdf` succeeds on a parsed source. -/
def loadState (src : List SrcPage) : EditorState :=
  ⟨src, loadPagesFrom 0 src, loadDocFrom 0 src, false, none⟩

/-- `togglePageSelection`. -/
def togglePageSelection (s : EditorState) (i : Nat) : EditorState :=
  { s with pages := updAt (fun p => { p with selected := !p.selected }) i s.pages }

/-- `selectAllPages`. -/
def selectAllPages (s : EditorState) (b : Bool) : EditorState :=
  { s with pages := s.pages.map fun p => { p with selected := b } }

/-- `deleteSelectedPages`: a no-op when nothing is selected or when every
page is selected ("Cannot delete all pages"); otherwise removes the
matching pages from the live document (looked up by tag, in descending
order of original index) and keeps in `pages` exactly the entries at
unselected positions, deselected. -/
def deleteSelectedPages (s : EditorState) : EditorState :=
  let sel := sortDesc (getSelectedCurrentIndices s.pages)
  if sel.length = 0 then s
  else if sel.length = s.pages.length then s
  else
    let idsToRemove := sortDesc (sel.filterMap fun idx => (s.pages[idx]?).map (·.id))
    { s with
      pdfDoc := idsToRemove.foldl (fun d o => eraseFirstTag o d) s.pdfDoc,
      pages := (keepNotIdxFrom sel 0 s.pages).map fun p => { p with selected := false } }

/-- One iteration of the `forEach` loop of `rotateSelectedPages`: look up
the page with the descriptor's original index in the (partially updated)
live document; when found, set its rotation to
`(current doc rotation + angle) % 360` and write the same value, plus
`selected := false`, into slot `idx` of the (partially updated) pages
array; when not found, skip (the UI entry is not updated either). -/
def rotateStep (angle : Int) (pages0 : List PagePreview)
    (acc : List DocPage × List PagePreview) (idx : Nat) :
    List DocPage × List PagePreview :=
  match pages0[idx]? with
  | none => acc
  | some p =>
    match rotTagFirst p.id angle acc.1 with
    | none => acc
    | some r =>
      (r.1, updAt (fun pp => { pp with rotation := r.2, selected := false }) idx acc.2)

/-- `rotateSelectedPages`: a no-op when nothing is selected; otherwise
folds `rotateStep` over the selected positions. -/
def rotateSelectedPages (s : EditorState) (angle : Int) : EditorState :=
  let sel := getSelectedCurrentIndices s.pages
  if sel.length = 0 then s
  else
    let r := sel.foldl (rotateStep angle s.pages) (s.pdfDoc, s.pages)
    { s with pdfDoc := r.1, pages := r.2 }

/-- `movePage`: a no-op at the boundary (position 0 for `left`, last
position for `right`); otherwise swaps the descriptor with its immediate
neighbour.  Calls with an out-of-range position do not occur in the UI
(the buttons exist only for live positions) and are modelled as no-ops. -/
def movePage (s : EditorState) (i : Nat) (d : MoveDir) : EditorState :=
  match d with
  | .left =>
    if i = 0 ∨ s.pages.length ≤ i then s
    else { s with pages := swapAt (i - 1) s.pages }
  | .right =>
    if s.pages.length ≤ i + 1 then s
    else { s with pages := swapAt i s.pages }

/-- The crop commit `applyCrop`, given the user's completed pixel
rectangle `c` and the displayed (natural) size `dispW × dispH` of the
preview image: looks the target page up in the live document by original
index (on failure the thrown error is caught and no state changes); on
success converts `c` to document coordinates with the two scale factors
and the vertical flip, writes the crop box into the live document page
and into the descriptor (deselecting it), and closes the session. -/
def applyCrop (s : EditorState) (c : PixelRect) (dispW dispH : ℚ) : EditorState :=
  match s.croppingPageInfo with
  | none => s
  | some info =>
    match findTag info.originalIndex s.pdfDoc with
    | none => s
    | some _ =>
      let scaleX := info.originalWidth / dispW
      let scaleY := info.originalHeight / dispH
      let pdfX := c.x * scaleX
      let pdfY := info.originalHeight - (c.y + c.height) * scaleY
      let pdfW := c.width * scaleX
      let pdfH := c.height * scaleY
      let r : CropBoxRect := ⟨pdfX, pdfY, pdfW, pdfH⟩
      { s with
        pdfDoc := setCropFirstTag info.originalIndex r s.pdfDoc,
        pages := updAt (fun p => { p with cropBox := some r, selected := false }) info.index s.pages,
        isCropping := false,
        croppingPageInfo := none }

/-- An attempt to open the crop dialog.  The toolbar button is disabled
while a session is open (`disabled={... || isCropping}`), and
`openCropDialog` itself returns unless exactly one page is selected; on
success the original page is rendered (`renderOk` abstracts the
collaborator's rasterisation outcome) and the session records the
selected page; on a render failure the dialog closes again and the store
is untouched. -/
def openCropAttempt (s : EditorState) (renderOk : Bool) : EditorState :=
  if s.isCropping then s
  else
    match getSelectedCurrentIndices s.pages with
    | [idx] =>
      match s.pages[idx]? with
      | none => s
      | some p =>
        if renderOk then
          { s with isCropping := true,
                   croppingPageInfo := some ⟨idx, p.id, p.width, p.height⟩ }
        else
          { s with isCropping := false, croppingPageInfo := none }
    | _ => s

/-- `closeCropDialog` (also the cancel path of the dialog). -/
def closeCropDialog (s : EditorState) : EditorState :=
  { s with isCropping := false, croppingPageInfo := none }

/-- The page-copying loop of `saveChanges`: for each descriptor in
display order, copy the page at its original index from the freshly
parsed source (`copyPages` throws when the index does not exist, which
aborts the whole save), then apply the descriptor's rotation and, when
present, its crop box. -/
def buildOutput (src : List SrcPage) : List PagePreview → Option (List OutPage)
  | [] => some []
  | p :: ps =>
    match src[p.id]? with
    | none => none
    | some sp => (buildOutput src ps).map fun out =>
        ⟨p.id, sp.width, sp.height, p.rotation, p.cropBox⟩ :: out

/-- `saveChanges`: refuses while a crop session is open; otherwise
rebuilds the output from a fresh parse of the original source and the
current descriptor array alone.  The function mutates no editor state
(the only state writes in the source are the transient busy flag), so
the resulting state is the input state. -/
def saveChanges (s : EditorState) : Option (List OutPage) × EditorState :=
  if s.isCropping then (none, s)
  else (buildOutput s.src s.pages, s)

/-! ### User-level steps and reachable states -/

/-- One completed user-level edit action.  The UI guards are part of the
action: while a crop session is open every structural action's button is
disabled (`disabled={... || isCropping}`) and the page tiles ignore
clicks, so those actions require `isCropping = false`; the crop commit
exists only inside the open dialog. -/
inductive EditStep : EditorState → EditorState → Prop where
  | toggle (s : EditorState) (i : Nat) (h : s.isCropping = false) :
      EditStep s (togglePageSelection s i)
  | selectAll (s : EditorState) (b : Bool) (h : s.isCropping = false) :
      EditStep s (selectAllPages s b)
  | move (s : EditorState) (i : Nat) (d : MoveDir) (h : s.isCropping = false) :
      EditStep s (movePage s i d)
  | delete (s : EditorState) (h : s.isCropping = false) :
      EditStep s (deleteSelectedPages s)
  | rotate (s : EditorState) (angle : Int) (h : s.isCropping = false) :
      EditStep s (rotateSelectedPages s angle)
  | openCrop (s : EditorState) (renderOk : Bool) :
      EditStep s (openCropAttempt s renderOk)
  | closeCrop (s : EditorState) :
      EditStep s (closeCropDialog s)
  | commitCrop (s : EditorState) (c : PixelRect) (dw dh : ℚ) (h : s.isCropping = true) :
      EditStep s (applyCrop s c dw dh)

/-- States reachable from a successful load of a parsed source by any
sequence of user-level edit actions. -/
inductive Reachable (src : List SrcPage) : EditorState → Prop where
  | load : Reachable src (loadState src)
  | step {s t : EditorState} : Reachable src s → EditStep s t → Reachable src t

/-- The session invariant: the parsed source is the loaded one, every
descriptor's original index addresses a source page, original indices
are unique, and the live document holds, for every descriptor, a first
page with the descriptor's tag and the same rotation. -/
def Inv (src : List SrcPage) (s : EditorState) : Prop :=
  s.src = src ∧
  (∀ p ∈ s.pages, p.id < src.length) ∧
  (s.pages.map PagePreview.id).Nodup ∧
  (∀ (j : Nat) (p : PagePreview), s.pages[j]? = some p →
    ∃ cb, findTag p.id s.pdfDoc = some ⟨p.id, p.rotation, cb⟩)

/-- The multiset (list) of original indices currently in the store. -/
def idsOf (s : EditorState) : List Nat :=
  s.pages.map PagePreview.id

/-! ### Concrete states used to instantiate the theorems -/

/-- A one-page parsed source: a 600 x 800 pt page, unrotated. -/
def srcOne : List SrcPage := [⟨600, 800, 0⟩]

/-- A two-page parsed source. -/
def srcTwo : List SrcPage := [⟨600, 800, 0⟩, ⟨612, 792, 90⟩]

/-- The one-page session with its page selected (the state reached from
`loadState srcOne` by toggling the selection of position 0). -/
def sOneSel : EditorState :=
  ⟨srcOne, [⟨0, true, 600, 800, 0, none⟩], [⟨0, 0, none⟩], false, none⟩

/-- The one-page session with its page selected and a crop session open
on it (600 x 800 pt page). -/
def sCropSession : EditorState :=
  ⟨srcOne, [⟨0, true, 600, 800, 0, none⟩], [⟨0, 0, none⟩], true, some ⟨0, 0, 600, 800⟩⟩

/-- The two-page session with the first page selected. -/
def sTwoOneSel : EditorState :=
  ⟨srcTwo, [⟨0, true, 600, 800, 0, none⟩, ⟨1, false, 612, 792, 90, none⟩],
   [⟨0, 0, none⟩, ⟨1, 90, none⟩], false, none⟩

/-! ### Lemmas about the list helpers -/

theorem length_updAt (f : α → α) : ∀ (i : Nat) (l : List α),
    (updAt f i l).length = l.length
  | i, [] => by simp [updAt]
  | 0, _ :: _ => rfl
  | n + 1, _ :: as => by simp only [updAt, List.length_cons, length_updAt f n as]

theorem getElem?_updAt (f : α → α) : ∀ (l : List α) (i j : Nat),
    (updAt f i l)[j]? = if j = i then (l[j]?).map f else l[j]?
  | [], i, j => by simp [updAt]
  | a :: as, 0, 0 => by simp [updAt]
  | a :: as, 0, j + 1 => by simp [updAt]
  | a :: as, i + 1, 0 => by simp [updAt]
  | a :: as, i + 1, j + 1 => by
    simp only [updAt, List.getElem?_cons_succ, getElem?_updAt f as i j, Nat.add_right_cancel_iff]

theorem map_updAt (f : α → α) (g : α → β) (h : ∀ a, g (f a) = g a) :
    ∀ (i : Nat) (l : List α), (updAt f i l).map g = l.map g
  | i, [] => by simp [updAt]
  | 0, a :: as => by simp only [updAt, List.map_cons, h a]
  | n + 1, a :: as => by simp only [updAt, List.map_cons, map_updAt f g h n as]

theorem perm_swapAt : ∀ (n : Nat) (l : List α), (swapAt n l).Perm l
  | 0, [] => List.Perm.refl _
  | 0, [_] => List.Perm.refl _
  | 0, a :: b :: rest => List.Perm.swap a b rest
  | _ + 1, [] => List.Perm.refl _
  | n + 1, a :: as => List.Perm.cons a (perm_swapAt n as)

theorem getElem?_swapAt : ∀ (n : Nat) (l : List α) (j : Nat), n + 1 < l.length →
    (swapAt n l)[j]? =
      if j = n then l[n + 1]? else if j = n + 1 then l[n]? else l[j]?
  | 0, a :: b :: rest, 0, _ => by simp [swapAt]
  | 0, a :: b :: rest, 1, _ => by simp [swapAt]
  | 0, a :: b :: rest, j + 2, _ => by simp [swapAt]
  | n + 1, a :: as, 0, h => by simp [swapAt]
  | n + 1, a :: as, j + 1, h => by
    have hlt : n + 1 < as.length := by
      simpa [Nat.succ_lt_succ_iff] using h
    simp only [swapAt, List.getElem?_cons_succ, getElem?_swapAt n as j hlt,
      Nat.add_right_cancel_iff]

theorem mem_selectedIndicesFrom (l : List PagePreview) :
    ∀ (k i : Nat),
      i ∈ selectedIndicesFrom k l ↔
        ∃ (j : Nat) (p : PagePreview), l[j]? = some p ∧ i = k + j ∧ p.selected = true := by
  induction l with
  | nil => intro k i; simp [selectedIndicesFrom]
  | cons p ps ih =>
    intro k i
    constructor
    · intro hmem
      rw [selectedIndicesFrom] at hmem
      by_cases hp : p.selected
      · rw [if_pos hp] at hmem
        rcases List.mem_cons.1 hmem with rfl | hmem'
        · exact ⟨0, p, by simp, by simp, hp⟩
        · obtain ⟨j, q, hq, rfl, hsel⟩ := (ih (k + 1) i).1 hmem'
          exact ⟨j + 1, q, by simpa using hq, by omega, hsel⟩
      · rw [if_neg hp] at hmem
        obtain ⟨j, q, hq, rfl, hsel⟩ := (ih (k + 1) i).1 hmem
        exact ⟨j + 1, q, by simpa using hq, by omega, hsel⟩
    · rintro ⟨j, q, hq, rfl, hsel⟩
      rw [selectedIndicesFrom]
      cases j with
      | zero =>
        have hq0 : q = p := by simpa using hq.symm
        subst hq0
        rw [if_pos hsel]
        exact List.mem_cons_self _ _
      | succ j' =>
        have hq' : ps[j']? = some q := by simpa using hq
        have hmem' : k + (j' + 1) ∈ selectedIndicesFrom (k + 1) ps :=
          (ih (k + 1) (k + (j' + 1))).2 ⟨j', q, hq', by omega, hsel⟩
        by_cases hp : p.selected
        · rw [if_pos hp]
          exact List.mem_cons_of_mem _ hmem'
        · rw [if_neg hp]
          exact hmem'

theorem length_selectedIndicesFrom :
    ∀ (l : List PagePreview) (k : Nat),
      (selectedIndicesFrom k l).length = l.countP (fun p => p.selected)
  | [], _ => rfl
  | p :: ps, k => by
    by_cases hp : p.selected <;>
      simp [selectedIndicesFrom, hp, List.countP_cons, length_selectedIndicesFrom ps (k + 1)]

theorem le_of_mem_selectedIndicesFrom :
    ∀ (l : List PagePreview) (k i : Nat), i ∈ selectedIndicesFrom k l → k ≤ i := by
  intro l k i h
  obtain ⟨j, p, _, rfl, _⟩ := (mem_selectedIndicesFrom l k i).1 h
  omega

theorem nodup_selectedIndicesFrom :
    ∀ (l : List PagePreview) (k : Nat), (selectedIndicesFrom k l).Nodup
  | [], _ => List.nodup_nil
  | p :: ps, k => by
    by_cases hp : p.selected
    · simp only [selectedIndicesFrom, hp, if_pos, List.nodup_cons]
      refine ⟨fun hmem => ?_, nodup_selectedIndicesFrom ps (k + 1)⟩
      have := le_of_mem_selectedIndicesFrom ps (k + 1) k hmem
      omega
    · simpa [selectedIndicesFrom, hp] using nodup_selectedIndicesFrom ps (k + 1)

theorem perm_insertDesc (a : Nat) : ∀ l : List Nat, (insertDesc a l).Perm (a :: l)
  | [] => List.Perm.refl _
  | b :: bs => by
    by_cases hb : b ≤ a
    · simp [insertDesc, hb]
    · simp only [insertDesc, hb, if_neg, not_false_iff]
      exact ((perm_insertDesc a bs).cons b).trans (List.Perm.swap a b bs)

theorem perm_sortDesc : ∀ l : List Nat, (sortDesc l).Perm l
  | [] => List.Perm.refl _
  | a :: as =>
    (perm_insertDesc a (sortDesc as)).trans ((perm_sortDesc as).cons a)

theorem mem_sortDesc {l : List Nat} {i : Nat} : i ∈ sortDesc l ↔ i ∈ l :=
  (perm_sortDesc l).mem_iff

theorem length_sortDesc (l : List Nat) : (sortDesc l).length = l.length :=
  (perm_sortDesc l).length_eq

theorem keepNotIdxFrom_eq_filter (S : List Nat) :
    ∀ (l : List PagePreview) (k : Nat),
      (∀ i, k ≤ i → (i ∈ S ↔
        ∃ (j : Nat) (p : PagePreview), l[j]? = some p ∧ i = k + j ∧ p.selected = true)) →
      keepNotIdxFrom S k l = l.filter (fun p => !p.selected)
  | [], _, _ => rfl
  | a :: as, k, h => by
    have hk : k ∈ S ↔ a.selected = true := by
      rw [h k (Nat.le_refl k)]
      constructor
      · rintro ⟨j, p, hp, hkj, hsel⟩
        have hj : j = 0 := by omega
        subst hj
        have hpa : p = a := by simpa using hp.symm
        exact hpa ▸ hsel
      · intro hsel
        exact ⟨0, a, by simp, by simp, hsel⟩
    have hrec : keepNotIdxFrom S (k + 1) as = as.filter (fun p => !p.selected) := by
      refine keepNotIdxFrom_eq_filter S as (k + 1) fun i hi => ?_
      rw [h i (by omega)]
      constructor
      · rintro ⟨j, p, hp, rfl, hsel⟩
        cases j with
        | zero => omega
        | succ j' => exact ⟨j', p, by simpa using hp, by omega, hsel⟩
      · rintro ⟨j, p, hp, rfl, hsel⟩
        exact ⟨j + 1, p, by simpa using hp, by omega, hsel⟩
    by_cases ha : a.selected
    · rw [keepNotIdxFrom, if_pos (hk.2 ha), hrec, List.filter_cons]
      simp [ha]
    · rw [keepNotIdxFrom, if_neg (fun hmem => ha (hk.1 hmem)), hrec, List.filter_cons]
      simp [ha]

theorem sublist_keepNotIdxFrom (S : List Nat) :
    ∀ (k : Nat) (l : List α), (keepNotIdxFrom S k l).Sublist l
  | _, [] => List.Sublist.refl _
  | k, a :: as => by
    by_cases hk : k ∈ S
    · rw [keepNotIdxFrom, if_pos hk]
      exact (sublist_keepNotIdxFrom S (k + 1) as).cons a
    · rw [keepNotIdxFrom, if_neg hk]
      exact (sublist_keepNotIdxFrom S (k + 1) as).cons₂ a

theorem nodup_getElem?_inj {xs : List α} (h : xs.Nodup) :
    ∀ (i j : Nat) (a : α), xs[i]? = some a → xs[j]? = some a → i = j := by
  induction xs with
  | nil => intro i j a hi; simp at hi
  | cons x rest ih =>
    intro i j a hi hj
    rcases List.nodup_cons.1 h with ⟨hx, hrest⟩
    cases i with
    | zero =>
      cases j with
      | zero => rfl
      | succ j' =>
        have hax : a = x := by simpa using hi.symm
        subst hax
        have : a ∈ rest := List.mem_iff_getElem?.2 ⟨j', by simpa using hj⟩
        exact absurd this hx
    | succ i' =>
      cases j with
      | zero =>
        have hax : a = x := by simpa using hj.symm
        subst hax
        have : a ∈ rest := List.mem_iff_getElem?.2 ⟨i', by simpa using hi⟩
        exact absurd this hx
      | succ j' =>
        have := ih hrest i' j' a (by simpa using hi) (by simpa using hj)
        omega

theorem findTag_some_tag : ∀ (d : List DocPage) (t : Nat) (q : DocPage),
    findTag t d = some q → q.tag = t
  | [], t, q => by simp [findTag]
  | r :: rs, t, q => by
    rw [findTag]
    by_cases hr : r.tag = t
    · rw [if_pos hr]
      rintro ⟨⟩
      exact hr
    · rw [if_neg hr]
      exact findTag_some_tag rs t q

theorem findTag_eraseFirstTag_ne (o t : Nat) (hne : t ≠ o) :
    ∀ d : List DocPage, findTag t (eraseFirstTag o d) = findTag t d
  | [] => rfl
  | r :: rs => by
    rw [eraseFirstTag, findTag]
    by_cases hr : r.tag = o
    · rw [if_pos hr, if_neg (by rw [hr]; exact fun h => hne h.symm)]
    · rw [if_neg hr, findTag]
      by_cases hrt : r.tag = t
      · rw [if_pos hrt, if_pos hrt]
      · rw [if_neg hrt, if_neg hrt, findTag_eraseFirstTag_ne o t hne rs]

theorem findTag_foldl_erase (t : Nat) :
    ∀ (os : List Nat) (d : List DocPage), t ∉ os →
      findTag t (os.foldl (fun d' o => eraseFirstTag o d') d) = findTag t d
  | [], d, _ => rfl
  | o :: os, d, h => by
    have hto : t ≠ o := fun he => h (he ▸ List.mem_cons_self o os)
    have hos : t ∉ os := fun hm => h (List.mem_cons_of_mem o hm)
    rw [List.foldl_cons, findTag_foldl_erase t os (eraseFirstTag o d) hos,
      findTag_eraseFirstTag_ne o t hto d]

theorem rotTagFirst_map_tag (t : Nat) (a : Int) :
    ∀ (d d' : List DocPage) (n : Int), rotTagFirst t a d = some (d', n) →
      d'.map DocPage.tag = d.map DocPage.tag
  | [], d', n => by simp [rotTagFirst]
  | r :: rs, d', n => by
    rw [rotTagFirst]
    by_cases hr : r.tag = t
    · rw [if_pos hr]
      rintro ⟨⟩
      simp
    · rw [if_neg hr]
      cases hrec : rotTagFirst t a rs with
      | none => simp
      | some pr =>
        simp only [hrec, Option.map_some', Option.some_inj]
        rintro ⟨⟩
        simp only [List.map_cons, List.cons.injEq, true_and]
        exact rotTagFirst_map_tag t a rs pr.1 pr.2 hrec

theorem rotTagFirst_spec (t : Nat) (a : Int) :
    ∀ (d : List DocPage) (q : DocPage), findTag t d = some q →
      ∃ d', rotTagFirst t a d = some (d', (q.rotation + a).tmod 360) ∧
        findTag t d' = some ⟨t, (q.rotation + a).tmod 360, q.cropBox⟩ ∧
        (∀ u, u ≠ t → findTag u d' = findTag u d) ∧
        d'.map DocPage.tag = d.map DocPage.tag
  | [], q => by simp [findTag]
  | r :: rs, q => by
    rw [findTag]
    by_cases hr : r.tag = t
    · rw [if_pos hr]
      rintro ⟨⟩
      refine ⟨⟨r.tag, (r.rotation + a).tmod 360, r.cropBox⟩ :: rs, ?_, ?_, ?_, by simp⟩
      · rw [rotTagFirst, if_pos hr]
      · simp [findTag, hr]
      · intro u hu
        have hne : ¬ r.tag = u := fun h => hu (by rw [← h]; exact hr)
        simp [findTag, hne]
    · rw [if_neg hr]
      intro hfind
      obtain ⟨d'', h1, h2, h3, h4⟩ := rotTagFirst_spec t a rs q hfind
      refine ⟨r :: d'', ?_, ?_, ?_, by simpa using h4⟩
      · rw [rotTagFirst, if_neg hr, h1, Option.map_some']
      · rw [findTag, if_neg hr]
        exact h2
      · intro u hu
        rw [findTag, findTag]
        by_cases hru : r.tag = u
        · rw [if_pos hru, if_pos hru]
        · rw [if_neg hru, if_neg hru]
          exact h3 u hu

theorem findTag_setCropFirstTag (o : Nat) (rect : CropBoxRect) :
    ∀ (d : List DocPage) (t : Nat),
      findTag t (setCropFirstTag o rect d) =
        if t = o then (findTag t d).map (fun q => ⟨q.tag, q.rotation, some rect⟩)
        else findTag t d
  | [], t => by simp [setCropFirstTag, findTag]
  | r :: rs, t => by
    by_cases hr : r.tag = o
    · by_cases hto : t = o
      · subst hto
        simp [setCropFirstTag, findTag, hr]
      · have hrt : ¬ r.tag = t := fun h => hto (by rw [← h]; exact hr)
        have hot : ¬ o = t := fun h => hto h.symm
        simp [setCropFirstTag, findTag, hr, hrt, hto, hot]
    · by_cases hrt : r.tag = t
      · have hto : ¬ t = o := fun h => hr (by rw [hrt]; exact h)
        simp [setCropFirstTag, findTag, hr, hrt, hto]
      · simp [setCropFirstTag, findTag, hr, hrt, findTag_setCropFirstTag o rect rs t]

theorem setCropFirstTag_map_tag (o : Nat) (rect : CropBoxRect) :
    ∀ d : List DocPage,
      (setCropFirstTag o rect d).map DocPage.tag = d.map DocPage.tag
  | [] => rfl
  | r :: rs => by
    rw [setCropFirstTag]
    by_cases hr : r.tag = o
    · rw [if_pos hr]
      simp
    · rw [if_neg hr]
      simp only [List.map_cons, List.cons.injEq, true_and]
      exact setCropFirstTag_map_tag o rect rs

theorem buildOutput_eq_some (src : List SrcPage) :
    ∀ ps : List PagePreview, (∀ p ∈ ps, p.id < src.length) →
      ∃ out, buildOutput src ps = some out ∧ out.length = ps.length ∧
        (∀ (j : Nat) (q : PagePreview), ps[j]? = some q →
          ∃ sp, src[q.id]? = some sp ∧
            out[j]? = some ⟨q.id, sp.width, sp.height, q.rotation, q.cropBox⟩)
  | [], _ => ⟨[], rfl, rfl, by intro j q hq; simp at hq⟩
  | p :: ps, h => by
    have hp : p.id < src.length := h p (List.mem_cons_self p ps)
    obtain ⟨sp, hsp⟩ : ∃ sp, src[p.id]? = some sp := by
      exact ⟨src[p.id], (List.getElem?_eq_some).2 ⟨hp, rfl⟩⟩
    obtain ⟨out, h1, h2, h3⟩ :=
      buildOutput_eq_some src ps (fun q hq => h q (List.mem_cons_of_mem p hq))
    refine ⟨⟨p.id, sp.width, sp.height, p.rotation, p.cropBox⟩ :: out, ?_, by simp [h2], ?_⟩
    · simp [buildOutput, hsp, h1]
    · intro j q hq
      cases j with
      | zero =>
        have hqp : q = p := by simpa using hq.symm
        subst hqp
        exact ⟨sp, hsp, by simp⟩
      | succ j' =>
        obtain ⟨sp', hs1, hs2⟩ := h3 j' q (by simpa using hq)
        exact ⟨sp', hs1, by simpa using hs2⟩

theorem buildOutput_map_origIndex (src : List SrcPage) :
    ∀ (ps : List PagePreview) (out : List OutPage), buildOutput src ps = some out →
      out.map OutPage.origIndex = ps.map PagePreview.id
  | [], out => by
    rintro ⟨⟩
    rfl
  | p :: ps, out => by
    rw [buildOutput]
    cases hsp : src[p.id]? with
    | none => simp
    | some sp =>
      cases hrec : buildOutput src ps with
      | none => simp
      | some out' =>
        simp only [Option.map_some', Option.some_inj]
        rintro ⟨⟩
        simp only [List.map_cons, List.cons.injEq, true_and]
        exact buildOutput_map_origIndex src ps out' hrec

/-- Characterisation of the `forEach` fold of `rotateSelectedPages` over a
list of positions with pairwise distinct original indices, all present in
the live document with rotations agreeing with the descriptors: every
targeted slot of the pages array is rewritten with the new rotation and
deselected, every other slot is untouched, and the live document's
matching pages get the same new rotations, tags unchanged. -/
theorem rotate_foldl_spec (angle : Int) (pages0 : List PagePreview) :
    ∀ (sel : List Nat) (doc : List DocPage) (upd : List PagePreview),
      sel.Nodup →
      (∀ i ∈ sel, ∀ i' ∈ sel, i ≠ i' →
        ∀ (p p' : PagePreview), pages0[i]? = some p → pages0[i']? = some p' →
          p.id ≠ p'.id) →
      (∀ i ∈ sel, ∀ (p : PagePreview), pages0[i]? = some p →
        ∃ cb, findTag p.id doc = some ⟨p.id, p.rotation, cb⟩) →
      (∀ i ∈ sel, ∃ (p : PagePreview), pages0[i]? = some p) →
      ((sel.foldl (rotateStep angle pages0) (doc, upd)).2.length = upd.length) ∧
      (∀ j, j ∉ sel →
        (sel.foldl (rotateStep angle pages0) (doc, upd)).2[j]? = upd[j]?) ∧
      (∀ j ∈ sel, ∀ (p : PagePreview), pages0[j]? = some p →
        (sel.foldl (rotateStep angle pages0) (doc, upd)).2[j]? =
          (upd[j]?).map fun pp =>
            { pp with rotation := (p.rotation + angle).tmod 360, selected := false }) ∧
      (∀ t, (∀ i ∈ sel, ∀ (p : PagePreview), pages0[i]? = some p → p.id ≠ t) →
        findTag t (sel.foldl (rotateStep angle pages0) (doc, upd)).1 = findTag t doc) ∧
      (∀ j ∈ sel, ∀ (p : PagePreview), pages0[j]? = some p →
        ∃ cb, findTag p.id (sel.foldl (rotateStep angle pages0) (doc, upd)).1 =
          some ⟨p.id, (p.rotation + angle).tmod 360, cb⟩) ∧
      ((sel.foldl (rotateStep angle pages0) (doc, upd)).1.map DocPage.tag =
        doc.map DocPage.tag) := by
  intro sel
  induction sel with
  | nil =>
    intro doc upd _ _ _ _
    exact ⟨rfl, fun j _ => rfl, fun j hj => absurd hj (List.not_mem_nil j),
      fun t _ => rfl, fun j hj => absurd hj (List.not_mem_nil j), rfl⟩
  | cons i rest ih =>
    intro doc upd hnd hdist hsync hex
    obtain ⟨hnotin, hndrest⟩ := List.nodup_cons.1 hnd
    obtain ⟨p, hp⟩ := hex i (List.mem_cons_self i rest)
    obtain ⟨cb, hfind⟩ := hsync i (List.mem_cons_self i rest) p hp
    obtain ⟨d', h1, h2, h3, h4⟩ :=
      rotTagFirst_spec p.id angle doc ⟨p.id, p.rotation, cb⟩ hfind
    have hstep : rotateStep angle pages0 (doc, upd) i =
        (d', updAt (fun pp =>
          { pp with rotation := (p.rotation + angle).tmod 360, selected := false }) i upd) := by
      simp only [rotateStep, hp, h1]
    have hii' : ∀ i' ∈ rest, ∀ (p' : PagePreview), pages0[i']? = some p' → p'.id ≠ p.id := by
      intro i' hi' p' hp'
      refine hdist i' (List.mem_cons_of_mem i hi') i (List.mem_cons_self i rest)
        (fun he => hnotin (he ▸ hi')) p' p hp' hp
    have hsync' : ∀ i' ∈ rest, ∀ (p' : PagePreview), pages0[i']? = some p' →
        ∃ cb', findTag p'.id d' = some ⟨p'.id, p'.rotation, cb'⟩ := by
      intro i' hi' p' hp'
      obtain ⟨cb', hcb'⟩ := hsync i' (List.mem_cons_of_mem i hi') p' hp'
      exact ⟨cb', (h3 p'.id (hii' i' hi' p' hp')).trans hcb'⟩
    obtain ⟨ihL, ihNJ, ihJ, ihT, ihJT, ihMT⟩ :=
      ih d' (updAt (fun pp =>
          { pp with rotation := (p.rotation + angle).tmod 360, selected := false }) i upd)
        hndrest
        (fun i1 h1' i2 h2' => hdist i1 (List.mem_cons_of_mem i h1')
          i2 (List.mem_cons_of_mem i h2'))
        hsync'
        (fun i' hi' => hex i' (List.mem_cons_of_mem i hi'))
    rw [List.foldl_cons, hstep]
    refine ⟨?_, ?_, ?_, ?_, ?_, ?_⟩
    · exact ihL.trans (length_updAt _ i upd)
    · intro j hj
      have hji : j ≠ i := fun he => hj (he ▸ List.mem_cons_self i rest)
      have hjr : j ∉ rest := fun hm => hj (List.mem_cons_of_mem i hm)
      rw [ihNJ j hjr, getElem?_updAt, if_neg hji]
    · intro j hj p0 hp0
      rcases List.mem_cons.1 hj with rfl | hjr
      · have hpp : p0 = p := Option.some_inj.1 (hp0.symm.trans hp)
        subst hpp
        rw [ihNJ j hnotin, getElem?_updAt, if_pos rfl]
      · have hji : j ≠ i := fun he => hnotin (he ▸ hjr)
        rw [ihJ j hjr p0 hp0, getElem?_updAt, if_neg hji]
    · intro t ht
      have htp : p.id ≠ t := ht i (List.mem_cons_self i rest) p hp
      rw [ihT t (fun i' hi' p' hp' => ht i' (List.mem_cons_of_mem i hi') p' hp'),
        h3 t (fun he => htp he.symm)]
    · intro j hj p0 hp0
      rcases List.mem_cons.1 hj with rfl | hjr
      · have hpp : p0 = p := Option.some_inj.1 (hp0.symm.trans hp)
        subst hpp
        refine ⟨cb, ?_⟩
        rw [ihT p0.id (fun i' hi' p' hp' => hii' i' hi' p' hp')]
        exact h2
      · exact ihJT j hjr p0 hp0
    · exact ihMT.trans h4

/-- Frame property of the `rotateSelectedPages` fold, with no hypotheses:
the live document's tags and the descriptors' original indices are never
changed by rotating, whatever the lookups do. -/
theorem rotate_foldl_frame (angle : Int) (pages0 : List PagePreview) :
    ∀ (sel : List Nat) (doc : List DocPage) (upd : List PagePreview),
      ((sel.foldl (rotateStep angle pages0) (doc, upd)).1.map DocPage.tag =
        doc.map DocPage.tag) ∧
      ((sel.foldl (rotateStep angle pages0) (doc, upd)).2.map PagePreview.id =
        upd.map PagePreview.id)
  | [], doc, upd => ⟨rfl, rfl⟩
  | i :: rest, doc, upd => by
    rw [List.foldl_cons]
    cases hp : pages0[i]? with
    | none =>
      have hstep : rotateStep angle pages0 (doc, upd) i = (doc, upd) := by
        simp [rotateStep, hp]
      rw [hstep]
      exact rotate_foldl_frame angle pages0 rest doc upd
    | some p =>
      cases hr : rotTagFirst p.id angle doc with
      | none =>
        have hstep : rotateStep angle pages0 (doc, upd) i = (doc, upd) := by
          simp [rotateStep, hp, hr]
        rw [hstep]
        exact rotate_foldl_frame angle pages0 rest doc upd
      | some pr =>
        have hstep : rotateStep angle pages0 (doc, upd) i =
            (pr.1, updAt (fun pp =>
              { pp with rotation := pr.2, selected := false }) i upd) := by
          simp [rotateStep, hp, hr]
        rw [hstep]
        obtain ⟨hA, hB⟩ := rotate_foldl_frame angle pages0 rest pr.1
          (updAt (fun pp => { pp with rotation := pr.2, selected := false }) i upd)
        refine ⟨hA.trans (rotTagFirst_map_tag p.id angle doc pr.1 pr.2 ?_),
          hB.trans (map_updAt (fun pp =>
            { pp with rotation := pr.2, selected := false })
            PagePreview.id (fun a => rfl) i upd)⟩
        rw [hr]

/-- Under the success guards, `deleteSelectedPages` keeps exactly the
unselected descriptors, in order and deselected, erases the matching
tags from the live document, and touches nothing else. -/
theorem deleteSelectedPages_eq (s : EditorState)
    (h0 : 0 < s.pages.countP (fun p => p.selected))
    (hlt : s.pages.countP (fun p => p.selected) < s.pages.length) :
    (deleteSelectedPages s).pages =
      (s.pages.filter (fun p => !p.selected)).map (fun p => { p with selected := false }) ∧
    (deleteSelectedPages s).pdfDoc =
      (sortDesc ((sortDesc (getSelectedCurrentIndices s.pages)).filterMap
        fun idx => (s.pages[idx]?).map PagePreview.id)).foldl
        (fun d o => eraseFirstTag o d) s.pdfDoc ∧
    (deleteSelectedPages s).src = s.src ∧
    (deleteSelectedPages s).isCropping = s.isCropping ∧
    (deleteSelectedPages s).croppingPageInfo = s.croppingPageInfo := by
  have hlen : (sortDesc (getSelectedCurrentIndices s.pages)).length =
      s.pages.countP (fun p => p.selected) := by
    rw [length_sortDesc, getSelectedCurrentIndices, length_selectedIndicesFrom]
  have hkeep : keepNotIdxFrom (sortDesc (getSelectedCurrentIndices s.pages)) 0 s.pages =
      s.pages.filter (fun p => !p.selected) := by
    refine keepNotIdxFrom_eq_filter _ s.pages 0 fun i _ => ?_
    rw [mem_sortDesc, getSelectedCurrentIndices, mem_selectedIndicesFrom]
  rw [deleteSelectedPages]
  simp only [hkeep]
  rw [if_neg (by omega : ¬ (sortDesc (getSelectedCurrentIndices s.pages)).length = 0),
    if_neg (by omega : ¬ (sortDesc (getSelectedCurrentIndices s.pages)).length = s.pages.length)]
  exact ⟨rfl, rfl, rfl, rfl, rfl⟩

/-- `deleteSelectedPages` is rejected (a strict no-op) when nothing is
selected or when every page is selected. -/
theorem deleteSelectedPages_rejected (s : EditorState)
    (h : s.pages.countP (fun p => p.selected) = 0 ∨
      s.pages.countP (fun p => p.selected) = s.pages.length) :
    deleteSelectedPages s = s := by
  have hlen : (sortDesc (getSelectedCurrentIndices s.pages)).length =
      s.pages.countP (fun p => p.selected) := by
    rw [length_sortDesc, getSelectedCurrentIndices, length_selectedIndicesFrom]
  rw [deleteSelectedPages]
  rcases h with h | h
  · rw [if_pos (by omega)]
  · by_cases h0 : s.pages.countP (fun p => p.selected) = 0
    · rw [if_pos (by omega)]
    · rw [if_neg (by omega), if_pos (by omega)]

theorem mem_getSelectedCurrentIndices {pages : List PagePreview} {j : Nat} :
    j ∈ getSelectedCurrentIndices pages ↔
      ∃ p : PagePreview, pages[j]? = some p ∧ p.selected = true := by
  rw [getSelectedCurrentIndices, mem_selectedIndicesFrom]
  constructor
  · rintro ⟨j', p, hp, hj, hsel⟩
    have : j' = j := by omega
    subst this
    exact ⟨p, hp, hsel⟩
  · rintro ⟨p, hp, hsel⟩
    exact ⟨j, p, hp, by omega, hsel⟩

theorem ids_distinct_of_nodup {pages : List PagePreview}
    (h : (pages.map PagePreview.id).Nodup) {i j : Nat} (hij : i ≠ j)
    {p q : PagePreview} (hp : pages[i]? = some p) (hq : pages[j]? = some q) :
    p.id ≠ q.id := by
  intro he
  apply hij
  refine nodup_getElem?_inj h i j p.id ?_ ?_
  · rw [List.getElem?_map, hp]
    rfl
  · rw [List.getElem?_map, hq]
    simp [he]

theorem movePage_frame (s : EditorState) (i : Nat) (d : MoveDir) :
    (movePage s i d).pages.Perm s.pages ∧
    (movePage s i d).src = s.src ∧
    (movePage s i d).pdfDoc = s.pdfDoc ∧
    (movePage s i d).isCropping = s.isCropping ∧
    (movePage s i d).croppingPageInfo = s.croppingPageInfo := by
  cases d with
  | left =>
    rw [movePage]
    by_cases hb : i = 0 ∨ s.pages.length ≤ i
    · rw [if_pos hb]
      exact ⟨List.Perm.refl _, rfl, rfl, rfl, rfl⟩
    · rw [if_neg hb]
      exact ⟨perm_swapAt (i - 1) s.pages, rfl, rfl, rfl, rfl⟩
  | right =>
    rw [movePage]
    by_cases hb : s.pages.length ≤ i + 1
    · rw [if_pos hb]
      exact ⟨List.Perm.refl _, rfl, rfl, rfl, rfl⟩
    · rw [if_neg hb]
      exact ⟨perm_swapAt i s.pages, rfl, rfl, rfl, rfl⟩

theorem openCropAttempt_frame (s : EditorState) (ok : Bool) :
    (openCropAttempt s ok).src = s.src ∧
    (openCropAttempt s ok).pages = s.pages ∧
    (openCropAttempt s ok).pdfDoc = s.pdfDoc := by
  by_cases hc : s.isCropping
  · simp only [openCropAttempt, if_pos hc]
    refine ⟨?_, ?_, ?_⟩ <;> trivial
  · cases hsel : getSelectedCurrentIndices s.pages with
    | nil =>
      simp only [openCropAttempt, if_neg hc, hsel]
      refine ⟨?_, ?_, ?_⟩ <;> trivial
    | cons idx rest =>
      cases rest with
      | cons b bs =>
        simp only [openCropAttempt, if_neg hc, hsel]
        refine ⟨?_, ?_, ?_⟩ <;> trivial
      | nil =>
        cases hp : s.pages[idx]? with
        | none =>
          simp only [openCropAttempt, if_neg hc, hsel, hp]
          refine ⟨?_, ?_, ?_⟩ <;> trivial
        | some p =>
          cases ok with
          | true =>
            simp only [openCropAttempt, if_neg hc, hsel, hp]
            refine ⟨?_, ?_, ?_⟩ <;> trivial
          | false =>
            simp only [openCropAttempt, if_neg hc, hsel, hp]
            refine ⟨?_, ?_, ?_⟩ <;> trivial

theorem closeCropDialog_frame (s : EditorState) :
    (closeCropDialog s).src = s.src ∧
    (closeCropDialog s).pages = s.pages ∧
    (closeCropDialog s).pdfDoc = s.pdfDoc :=
  ⟨rfl, rfl, rfl⟩

/-- The document-space rectangle `applyCrop` computes from a pixel
rectangle (the scale factors and the vertical flip, exactly as coded). -/
def mappedCropRect (info : CroppingPageInfo) (c : PixelRect) (dw dh : ℚ) : CropBoxRect :=
  ⟨c.x * (info.originalWidth / dw),
   info.originalHeight - (c.y + c.height) * (info.originalHeight / dh),
   c.width * (info.originalWidth / dw),
   c.height * (info.originalHeight / dh)⟩

theorem applyCrop_eq (s : EditorState) (info : CroppingPageInfo) (c : PixelRect)
    (dw dh : ℚ) (hinfo : s.croppingPageInfo = some info)
    (hfound : (findTag info.originalIndex s.pdfDoc).isSome = true) :
    applyCrop s c dw dh =
      { s with
        pdfDoc := setCropFirstTag info.originalIndex (mappedCropRect info c dw dh) s.pdfDoc,
        pages := updAt (fun p =>
          { p with cropBox := some (mappedCropRect info c dw dh), selected := false })
          info.index s.pages,
        isCropping := false,
        croppingPageInfo := none } := by
  obtain ⟨q, hq⟩ := Option.isSome_iff_exists.1 hfound
  simp only [applyCrop, hinfo, hq, mappedCropRect]

theorem applyCrop_noSession (s : EditorState) (c : PixelRect) (dw dh : ℚ)
    (hinfo : s.croppingPageInfo = none) : applyCrop s c dw dh = s := by
  simp only [applyCrop, hinfo]

theorem applyCrop_notFound (s : EditorState) (info : CroppingPageInfo) (c : PixelRect)
    (dw dh : ℚ) (hinfo : s.croppingPageInfo = some info)
    (hfound : findTag info.originalIndex s.pdfDoc = none) : applyCrop s c dw dh = s := by
  simp only [applyCrop, hinfo, hfound]

/-- Full characterisation of `rotateSelectedPages` on a store whose
original indices are unique and agree with the live document: selected
descriptors get the new rotation and are deselected, unselected ones are
untouched, the store and document stay in agreement, and nothing else
changes. -/
theorem rotateSelectedPages_spec (s : EditorState) (angle : Int)
    (hnd : (s.pages.map PagePreview.id).Nodup)
    (hsync : ∀ (j : Nat) (p : PagePreview), s.pages[j]? = some p →
      ∃ cb, findTag p.id s.pdfDoc = some ⟨p.id, p.rotation, cb⟩) :
    (∀ (j : Nat) (p : PagePreview), s.pages[j]? = some p → p.selected = true →
      (rotateSelectedPages s angle).pages[j]? =
        some { p with rotation := (p.rotation + angle).tmod 360, selected := false }) ∧
    (∀ (j : Nat) (p : PagePreview), s.pages[j]? = some p → p.selected = false →
      (rotateSelectedPages s angle).pages[j]? = some p) ∧
    (∀ (j : Nat) (p : PagePreview), (rotateSelectedPages s angle).pages[j]? = some p →
      ∃ cb, findTag p.id (rotateSelectedPages s angle).pdfDoc =
        some ⟨p.id, p.rotation, cb⟩) ∧
    ((rotateSelectedPages s angle).pages.map PagePreview.id =
      s.pages.map PagePreview.id) ∧
    ((rotateSelectedPages s angle).src = s.src) ∧
    ((rotateSelectedPages s angle).isCropping = s.isCropping) ∧
    ((rotateSelectedPages s angle).croppingPageInfo = s.croppingPageInfo) := by
  by_cases hsel : (getSelectedCurrentIndices s.pages).length = 0
  · have hrot : rotateSelectedPages s angle = s := by
      rw [rotateSelectedPages, if_pos hsel]
    have hnone : ∀ (j : Nat) (p : PagePreview), s.pages[j]? = some p →
        p.selected = true → False := by
      intro j p hp hpsel
      have : j ∈ getSelectedCurrentIndices s.pages :=
        mem_getSelectedCurrentIndices.2 ⟨p, hp, hpsel⟩
      rw [List.length_eq_zero.1 hsel] at this
      exact absurd this (List.not_mem_nil j)
    rw [hrot]
    exact ⟨fun j p hp hpsel => (hnone j p hp hpsel).elim,
      fun j p hp _ => hp, hsync, rfl, rfl, rfl, rfl⟩
  · have hrot : rotateSelectedPages s angle =
        { s with
          pdfDoc := ((getSelectedCurrentIndices s.pages).foldl
            (rotateStep angle s.pages) (s.pdfDoc, s.pages)).1,
          pages := ((getSelectedCurrentIndices s.pages).foldl
            (rotateStep angle s.pages) (s.pdfDoc, s.pages)).2 } := by
      rw [rotateSelectedPages, if_neg hsel]
    have hdist : ∀ i ∈ getSelectedCurrentIndices s.pages,
        ∀ i' ∈ getSelectedCurrentIndices s.pages, i ≠ i' →
        ∀ (p p' : PagePreview), s.pages[i]? = some p → s.pages[i']? = some p' →
          p.id ≠ p'.id := by
      intro i _ i' _ hne p p' hp hp'
      exact ids_distinct_of_nodup hnd hne hp hp'
    have hsync' : ∀ i ∈ getSelectedCurrentIndices s.pages,
        ∀ (p : PagePreview), s.pages[i]? = some p →
          ∃ cb, findTag p.id s.pdfDoc = some ⟨p.id, p.rotation, cb⟩ :=
      fun i _ p hp => hsync i p hp
    have hex : ∀ i ∈ getSelectedCurrentIndices s.pages,
        ∃ (p : PagePreview), s.pages[i]? = some p := by
      intro i hi
      obtain ⟨p, hp, _⟩ := mem_getSelectedCurrentIndices.1 hi
      exact ⟨p, hp⟩
    obtain ⟨sL, sNJ, sJ, sT, sJT, sMT⟩ :=
      rotate_foldl_spec angle s.pages (getSelectedCurrentIndices s.pages)
        s.pdfDoc s.pages (nodup_selectedIndicesFrom s.pages 0) hdist hsync' hex
    obtain ⟨fT, fI⟩ := rotate_foldl_frame angle s.pages
      (getSelectedCurrentIndices s.pages) s.pdfDoc s.pages
    rw [hrot]
    refine ⟨?_, ?_, ?_, fI, rfl, rfl, rfl⟩
    · intro j p hp hpsel
      have hj : j ∈ getSelectedCurrentIndices s.pages :=
        mem_getSelectedCurrentIndices.2 ⟨p, hp, hpsel⟩
      rw [sJ j hj p hp, hp, Option.map_some']
    · intro j p hp hpsel
      have hj : j ∉ getSelectedCurrentIndices s.pages := by
        intro hmem
        obtain ⟨p', hp', hsel'⟩ := mem_getSelectedCurrentIndices.1 hmem
        have : p' = p := Option.some_inj.1 (hp'.symm.trans hp)
        subst this
        rw [hpsel] at hsel'
        exact Bool.false_ne_true hsel'
      rw [sNJ j hj]
      exact hp
    · intro j p hp
      by_cases hj : j ∈ getSelectedCurrentIndices s.pages
      · obtain ⟨q, hq, hqsel⟩ := mem_getSelectedCurrentIndices.1 hj
        rw [sJ j hj q hq, hq, Option.map_some', Option.some_inj] at hp
        obtain ⟨cb, hcb⟩ := sJT j hj q hq
        refine ⟨cb, ?_⟩
        rw [← hp]
        exact hcb
      · rw [sNJ j hj] at hp
        obtain ⟨cb, hcb⟩ := hsync j p hp
        refine ⟨cb, ?_⟩
        rw [sT p.id ?_]
        · exact hcb
        · intro i hi p' hp'
          have hne : i ≠ j := fun he => hj (he ▸ hi)
          exact ids_distinct_of_nodup hnd hne hp' hp

theorem getElem?_loadPagesFrom : ∀ (src : List SrcPage) (k j : Nat),
    (loadPagesFrom k src)[j]? = (src[j]?).map fun sp =>
      ⟨k + j, false, sp.width, sp.height, sp.rotation, none⟩
  | [], k, j => by simp [loadPagesFrom]
  | sp :: sps, k, 0 => by simp [loadPagesFrom]
  | sp :: sps, k, j + 1 => by
    have he : k + 1 + j = k + (j + 1) := by omega
    rw [loadPagesFrom, List.getElem?_cons_succ, List.getElem?_cons_succ,
      getElem?_loadPagesFrom sps (k + 1) j, he]

theorem findTag_loadDocFrom : ∀ (src : List SrcPage) (k j : Nat) (sp : SrcPage),
    src[j]? = some sp →
    findTag (k + j) (loadDocFrom k src) = some ⟨k + j, sp.rotation, none⟩
  | [], k, j, sp => by simp
  | sp' :: sps, k, 0, sp => by
    intro h
    have hsp : sp = sp' := by simpa using h.symm
    subst hsp
    simp [loadDocFrom, findTag]
  | sp' :: sps, k, j + 1, sp => by
    intro h
    have hne : ¬ (k = k + (j + 1)) := by omega
    rw [loadDocFrom, findTag, if_neg hne]
    have hrec := findTag_loadDocFrom sps (k + 1) j sp (by simpa using h)
    have he : k + 1 + j = k + (j + 1) := by omega
    rw [he] at hrec
    exact hrec

theorem id_lt_loadPagesFrom : ∀ (src : List SrcPage) (k : Nat),
    ∀ p ∈ loadPagesFrom k src, p.id < k + src.length
  | [], _, p => by simp [loadPagesFrom]
  | sp :: sps, k, p => by
    intro hp
    rcases List.mem_cons.1 hp with rfl | hp'
    · simp only [List.length_cons]
      omega
    · have := id_lt_loadPagesFrom sps (k + 1) p hp'
      simp only [List.length_cons]
      omega

theorem id_ge_loadPagesFrom : ∀ (src : List SrcPage) (k : Nat),
    ∀ p ∈ loadPagesFrom k src, k ≤ p.id
  | [], _, p => by simp [loadPagesFrom]
  | sp :: sps, k, p => by
    intro hp
    rcases List.mem_cons.1 hp with rfl | hp'
    · exact Nat.le_refl k
    · have := id_ge_loadPagesFrom sps (k + 1) p hp'
      omega

theorem nodup_id_loadPagesFrom : ∀ (src : List SrcPage) (k : Nat),
    ((loadPagesFrom k src).map PagePreview.id).Nodup
  | [], _ => List.nodup_nil
  | sp :: sps, k => by
    rw [loadPagesFrom, List.map_cons, List.nodup_cons]
    refine ⟨fun hmem => ?_, nodup_id_loadPagesFrom sps (k + 1)⟩
    obtain ⟨q, hq, hqid⟩ := List.mem_map.1 hmem
    have := id_ge_loadPagesFrom sps (k + 1) q hq
    simp only at hqid
    omega

theorem loadState_inv (src : List SrcPage) : Inv src (loadState src) := by
  refine ⟨rfl, ?_, nodup_id_loadPagesFrom src 0, ?_⟩
  · intro p hp
    have := id_lt_loadPagesFrom src 0 p hp
    omega
  · intro j p hp
    have hp' : (loadPagesFrom 0 src)[j]? = some p := hp
    rw [getElem?_loadPagesFrom] at hp'
    cases hsp : src[j]? with
    | none =>
      rw [hsp] at hp'
      simp at hp'
    | some sp =>
      rw [hsp, Option.map_some', Option.some_inj] at hp'
      refine ⟨none, ?_⟩
      have hfind := findTag_loadDocFrom src 0 j sp hsp
      rw [← hp']
      simpa using hfind

/-- The projection to original indices ignores deselection. -/
theorem map_id_deselect (l : List PagePreview) :
    ((l.map fun p => { p with selected := false }).map PagePreview.id) =
      l.map PagePreview.id := by
  induction l with
  | nil => rfl
  | cons p ps ih => simp [ih]

/-- The projection to original indices ignores `selectAllPages`. -/
theorem map_id_selectAll (l : List PagePreview) (b : Bool) :
    ((l.map fun p => { p with selected := b }).map PagePreview.id) =
      l.map PagePreview.id := by
  induction l with
  | nil => rfl
  | cons p ps ih => simp [ih]

theorem inv_fieldwise {src : List SrcPage} {s s' : EditorState}
    (hinv : Inv src s)
    (hsrc : s'.src = s.src)
    (hdoc : s'.pdfDoc = s.pdfDoc)
    (hpt : ∀ (j : Nat) (p : PagePreview), s'.pages[j]? = some p →
      ∃ q : PagePreview, s.pages[j]? = some q ∧ p.id = q.id ∧ p.rotation = q.rotation)
    (hmap : s'.pages.map PagePreview.id = s.pages.map PagePreview.id) :
    Inv src s' := by
  obtain ⟨h1, h2, h3, h4⟩ := hinv
  refine ⟨hsrc.trans h1, ?_, ?_, ?_⟩
  · intro p hp
    have hmem : p.id ∈ s'.pages.map PagePreview.id := List.mem_map_of_mem _ hp
    rw [hmap] at hmem
    obtain ⟨q, hq, hqid⟩ := List.mem_map.1 hmem
    rw [← hqid]
    exact h2 q hq
  · rw [hmap]
    exact h3
  · intro j p hp
    obtain ⟨q, hq, hid, hrot⟩ := hpt j p hp
    obtain ⟨cb, hcb⟩ := h4 j q hq
    refine ⟨cb, ?_⟩
    rw [hid, hrot, hdoc]
    exact hcb

theorem inv_perm {src : List SrcPage} {s s' : EditorState} (hinv : Inv src s)
    (hsrc : s'.src = s.src) (hdoc : s'.pdfDoc = s.pdfDoc)
    (hperm : s'.pages.Perm s.pages) : Inv src s' := by
  obtain ⟨h1, h2, h3, h4⟩ := hinv
  refine ⟨hsrc.trans h1, fun p hp => h2 p (hperm.mem_iff.1 hp),
    ((hperm.map PagePreview.id).symm).nodup h3, ?_⟩
  intro j p hp
  have hmem : p ∈ s.pages := hperm.mem_iff.1 (List.mem_iff_getElem?.2 ⟨j, hp⟩)
  obtain ⟨j', hj'⟩ := List.mem_iff_getElem?.1 hmem
  obtain ⟨cb, hcb⟩ := h4 j' p hj'
  refine ⟨cb, ?_⟩
  rw [hdoc]
  exact hcb

theorem togglePageSelection_inv {src : List SrcPage} {s : EditorState}
    (hinv : Inv src s) (i : Nat) : Inv src (togglePageSelection s i) := by
  refine inv_fieldwise hinv rfl rfl ?_ ?_
  · intro j p hp
    have hp' : (updAt (fun p => { p with selected := !p.selected }) i s.pages)[j]? =
        some p := hp
    rw [getElem?_updAt] at hp'
    by_cases hij : j = i
    · rw [if_pos hij] at hp'
      cases hq : s.pages[j]? with
      | none =>
        rw [hq] at hp'
        simp at hp'
      | some q =>
        rw [hq, Option.map_some', Option.some_inj] at hp'
        subst hp'
        exact ⟨q, rfl, rfl, rfl⟩
    · rw [if_neg hij] at hp'
      exact ⟨p, hp', rfl, rfl⟩
  · show (updAt (fun p => { p with selected := !p.selected }) i s.pages).map
        PagePreview.id = s.pages.map PagePreview.id
    exact map_updAt (fun p => { p with selected := !p.selected })
      PagePreview.id (fun a => rfl) i s.pages

theorem selectAllPages_inv {src : List SrcPage} {s : EditorState}
    (hinv : Inv src s) (b : Bool) : Inv src (selectAllPages s b) := by
  refine inv_fieldwise hinv rfl rfl ?_ ?_
  · intro j p hp
    have hp' : ((s.pages.map fun p => { p with selected := b }))[j]? = some p := hp
    rw [List.getElem?_map] at hp'
    cases hq : s.pages[j]? with
    | none =>
      rw [hq] at hp'
      simp at hp'
    | some q =>
      rw [hq, Option.map_some', Option.some_inj] at hp'
      subst hp'
      exact ⟨q, rfl, rfl, rfl⟩
  · exact map_id_selectAll s.pages b

theorem movePage_inv {src : List SrcPage} {s : EditorState}
    (hinv : Inv src s) (i : Nat) (d : MoveDir) : Inv src (movePage s i d) := by
  obtain ⟨hperm, hsrc, hdoc, _, _⟩ := movePage_frame s i d
  exact inv_perm hinv hsrc hdoc hperm

/-- Membership in the identifier list removed by `deleteSelectedPages`:
every removed identifier is the identifier of a selected descriptor. -/
theorem mem_removeIds {s : EditorState} {o : Nat}
    (h : o ∈ sortDesc ((sortDesc (getSelectedCurrentIndices s.pages)).filterMap
      fun idx => (s.pages[idx]?).map PagePreview.id)) :
    ∃ (idx : Nat) (r : PagePreview), s.pages[idx]? = some r ∧ r.selected = true ∧
      r.id = o := by
  rw [mem_sortDesc, List.mem_filterMap] at h
  obtain ⟨idx, hidx, hmap⟩ := h
  rw [mem_sortDesc, mem_getSelectedCurrentIndices] at hidx
  obtain ⟨r, hr, hrsel⟩ := hidx
  rw [hr, Option.map_some', Option.some_inj] at hmap
  exact ⟨idx, r, hr, hrsel, hmap⟩

theorem deleteSelectedPages_inv {src : List SrcPage} {s : EditorState}
    (hinv : Inv src s) : Inv src (deleteSelectedPages s) := by
  by_cases h0 : s.pages.countP (fun p => p.selected) = 0
  · rw [deleteSelectedPages_rejected s (Or.inl h0)]
    exact hinv
  by_cases hall : s.pages.countP (fun p => p.selected) = s.pages.length
  · rw [deleteSelectedPages_rejected s (Or.inr hall)]
    exact hinv
  have hcount : 0 < s.pages.countP (fun p => p.selected) := Nat.pos_of_ne_zero h0
  have hle : s.pages.countP (fun p => p.selected) ≤ s.pages.length :=
    List.countP_le_length _
  have hlt : s.pages.countP (fun p => p.selected) < s.pages.length := by omega
  obtain ⟨hpages, hdoc, hsrc, _, _⟩ := deleteSelectedPages_eq s hcount hlt
  obtain ⟨h1, h2, h3, h4⟩ := hinv
  refine ⟨hsrc.trans h1, ?_, ?_, ?_⟩
  · intro p hp
    rw [hpages] at hp
    obtain ⟨q, hq, hqp⟩ := List.mem_map.1 hp
    have hq' : q ∈ s.pages := (List.mem_filter.1 hq).1
    rw [← hqp]
    exact h2 q hq'
  · rw [hpages, map_id_deselect]
    exact ((List.filter_sublist s.pages).map PagePreview.id).nodup h3
  · intro j p hp
    rw [hpages] at hp
    have hmem : p ∈ (s.pages.filter (fun p => !p.selected)).map
        (fun p => { p with selected := false }) := List.mem_iff_getElem?.2 ⟨j, hp⟩
    obtain ⟨q, hq, hqp⟩ := List.mem_map.1 hmem
    obtain ⟨hqmem, hqsel⟩ := List.mem_filter.1 hq
    obtain ⟨jq, hjq⟩ := List.mem_iff_getElem?.1 hqmem
    obtain ⟨cb, hcb⟩ := h4 jq q hjq
    refine ⟨cb, ?_⟩
    rw [← hqp]
    show findTag q.id (deleteSelectedPages s).pdfDoc =
      some ⟨q.id, q.rotation, cb⟩
    rw [hdoc]
    rw [findTag_foldl_erase q.id _ _ ?_]
    · exact hcb
    · intro hqin
      obtain ⟨idx, r, hr, hrsel, hrid⟩ := mem_removeIds hqin
      by_cases hje : jq = idx
      · subst hje
        have : q = r := Option.some_inj.1 (hjq.symm.trans hr)
        subst this
        rw [hrsel] at hqsel
        simp at hqsel
      · exact ids_distinct_of_nodup h3 hje hjq hr (by rw [hrid]) |>.elim
  -- end delete

theorem rotateSelectedPages_inv {src : List SrcPage} {s : EditorState}
    (hinv : Inv src s) (angle : Int) : Inv src (rotateSelectedPages s angle) := by
  obtain ⟨h1, h2, h3, h4⟩ := hinv
  obtain ⟨_, _, hIV, hmap, hsrc, _, _⟩ := rotateSelectedPages_spec s angle h3 h4
  refine ⟨hsrc.trans h1, ?_, ?_, hIV⟩
  · intro p hp
    have hmem : p.id ∈ (rotateSelectedPages s angle).pages.map PagePreview.id :=
      List.mem_map_of_mem _ hp
    rw [hmap] at hmem
    obtain ⟨q, hq, hqid⟩ := List.mem_map.1 hmem
    rw [← hqid]
    exact h2 q hq
  · rw [hmap]
    exact h3

theorem applyCrop_inv {src : List SrcPage} {s : EditorState}
    (hinv : Inv src s) (c : PixelRect) (dw dh : ℚ) :
    Inv src (applyCrop s c dw dh) := by
  cases hinfo : s.croppingPageInfo with
  | none =>
    rw [applyCrop_noSession s c dw dh hinfo]
    exact hinv
  | some info =>
    cases hfound : findTag info.originalIndex s.pdfDoc with
    | none =>
      rw [applyCrop_notFound s info c dw dh hinfo hfound]
      exact hinv
    | some qf =>
      rw [applyCrop_eq s info c dw dh hinfo (by rw [hfound]; rfl)]
      obtain ⟨h1, h2, h3, h4⟩ := hinv
      refine ⟨h1, ?_, ?_, ?_⟩
      · intro p hp
        have hmem : p.id ∈ (updAt (fun p =>
            { p with cropBox := some (mappedCropRect info c dw dh), selected := false })
            info.index s.pages).map PagePreview.id := List.mem_map_of_mem _ hp
        rw [map_updAt (fun p =>
          { p with cropBox := some (mappedCropRect info c dw dh), selected := false })
          PagePreview.id (fun a => rfl)] at hmem
        obtain ⟨q, hq, hqid⟩ := List.mem_map.1 hmem
        rw [← hqid]
        exact h2 q hq
      · show ((updAt (fun p =>
            { p with cropBox := some (mappedCropRect info c dw dh), selected := false })
            info.index s.pages).map PagePreview.id).Nodup
        rw [map_updAt (fun p =>
          { p with cropBox := some (mappedCropRect info c dw dh), selected := false })
          PagePreview.id (fun a => rfl)]
        exact h3
      · intro j p hp
        have hp' : (updAt (fun p =>
            { p with cropBox := some (mappedCropRect info c dw dh), selected := false })
            info.index s.pages)[j]? = some p := hp
        rw [getElem?_updAt] at hp'
        by_cases hij : j = info.index
        · rw [if_pos hij] at hp'
          cases hq : s.pages[j]? with
          | none =>
            rw [hq] at hp'
            simp at hp'
          | some q =>
            rw [hq, Option.map_some', Option.some_inj] at hp'
            subst hp'
            obtain ⟨cb, hcb⟩ := h4 j q hq
            show ∃ cb', findTag q.id (setCropFirstTag info.originalIndex
              (mappedCropRect info c dw dh) s.pdfDoc) =
              some ⟨q.id, q.rotation, cb'⟩
            rw [findTag_setCropFirstTag]
            by_cases hto : q.id = info.originalIndex
            · rw [if_pos hto, hcb]
              exact ⟨some (mappedCropRect info c dw dh), by simp⟩
            · rw [if_neg hto]
              exact ⟨cb, hcb⟩
        · rw [if_neg hij] at hp'
          obtain ⟨cb, hcb⟩ := h4 j p hp'
          show ∃ cb', findTag p.id (setCropFirstTag info.originalIndex
            (mappedCropRect info c dw dh) s.pdfDoc) =
            some ⟨p.id, p.rotation, cb'⟩
          rw [findTag_setCropFirstTag]
          by_cases hto : p.id = info.originalIndex
          · rw [if_pos hto, hcb]
            exact ⟨some (mappedCropRect info c dw dh), by simp⟩
          · rw [if_neg hto]
            exact ⟨cb, hcb⟩

theorem openCropAttempt_inv {src : List SrcPage} {s : EditorState}
    (hinv : Inv src s) (ok : Bool) : Inv src (openCropAttempt s ok) := by
  obtain ⟨hsrc, hpages, hdoc⟩ := openCropAttempt_frame s ok
  obtain ⟨h1, h2, h3, h4⟩ := hinv
  refine ⟨hsrc.trans h1, ?_, ?_, ?_⟩
  · intro p hp
    rw [hpages] at hp
    exact h2 p hp
  · rw [hpages]
    exact h3
  · intro j p hp
    rw [hpages] at hp
    obtain ⟨cb, hcb⟩ := h4 j p hp
    refine ⟨cb, ?_⟩
    rw [hdoc]
    exact hcb

theorem closeCropDialog_inv {src : List SrcPage} {s : EditorState}
    (hinv : Inv src s) : Inv src (closeCropDialog s) :=
  hinv

theorem editStep_inv {src : List SrcPage} {s t : EditorState}
    (hinv : Inv src s) (h : EditStep s t) : Inv src t := by
  cases h with
  | toggle i h => exact togglePageSelection_inv hinv i
  | selectAll b h => exact selectAllPages_inv hinv b
  | move i d h => exact movePage_inv hinv i d
  | delete h => exact deleteSelectedPages_inv hinv
  | rotate angle h => exact rotateSelectedPages_inv hinv angle
  | openCrop ok => exact openCropAttempt_inv hinv ok
  | closeCrop => exact closeCropDialog_inv hinv
  | commitCrop c dw dh h => exact applyCrop_inv hinv c dw dh

theorem reachable_inv {src : List SrcPage} {s : EditorState}
    (h : Reachable src s) : Inv src s := by
  induction h with
  | load => exact loadState_inv src
  | step hr hstep ih => exact editStep_inv ih hstep

theorem deleteSelectedPages_src_ids (s : EditorState) :
    (deleteSelectedPages s).src = s.src ∧
    (∀ i, i ∈ (deleteSelectedPages s).pages.map PagePreview.id →
      i ∈ s.pages.map PagePreview.id) := by
  rw [deleteSelectedPages]
  by_cases h0 : (sortDesc (getSelectedCurrentIndices s.pages)).length = 0
  · rw [if_pos h0]
    exact ⟨rfl, fun i hi => hi⟩
  · rw [if_neg h0]
    by_cases hall : (sortDesc (getSelectedCurrentIndices s.pages)).length = s.pages.length
    · rw [if_pos hall]
      exact ⟨rfl, fun i hi => hi⟩
    · rw [if_neg hall]
      refine ⟨rfl, ?_⟩
      intro i hi
      rw [map_id_deselect] at hi
      exact ((sublist_keepNotIdxFrom _ 0 s.pages).map PagePreview.id).subset hi

theorem rotateSelectedPages_src_ids (s : EditorState) (angle : Int) :
    (rotateSelectedPages s angle).src = s.src ∧
    (rotateSelectedPages s angle).pages.map PagePreview.id =
      s.pages.map PagePreview.id := by
  rw [rotateSelectedPages]
  by_cases h0 : (getSelectedCurrentIndices s.pages).length = 0
  · rw [if_pos h0]
    exact ⟨rfl, rfl⟩
  · rw [if_neg h0]
    exact ⟨rfl, (rotate_foldl_frame angle s.pages (getSelectedCurrentIndices s.pages)
      s.pdfDoc s.pages).2⟩

theorem applyCrop_src_ids (s : EditorState) (c : PixelRect) (dw dh : ℚ) :
    (applyCrop s c dw dh).src = s.src ∧
    (applyCrop s c dw dh).pages.map PagePreview.id =
      s.pages.map PagePreview.id := by
  cases hinfo : s.croppingPageInfo with
  | none =>
    rw [applyCrop_noSession s c dw dh hinfo]
    exact ⟨rfl, rfl⟩
  | some info =>
    cases hfound : findTag info.originalIndex s.pdfDoc with
    | none =>
      rw [applyCrop_notFound s info c dw dh hinfo hfound]
      exact ⟨rfl, rfl⟩
    | some qf =>
      rw [applyCrop_eq s info c dw dh hinfo (by rw [hfound]; rfl)]
      refine ⟨rfl, ?_⟩
      show ((updAt (fun p =>
          { p with cropBox := some (mappedCropRect info c dw dh), selected := false })
          info.index s.pages).map PagePreview.id) = s.pages.map PagePreview.id
      exact map_updAt (fun p =>
        { p with cropBox := some (mappedCropRect info c dw dh), selected := false })
        PagePreview.id (fun a => rfl) info.index s.pages

/-- Every user-level step leaves the parsed source alone and can only
shrink (never extend) the collection of original indices in the store. -/
theorem editStep_src_ids {s t : EditorState} (h : EditStep s t) :
    t.src = s.src ∧
    (∀ i, i ∈ t.pages.map PagePreview.id → i ∈ s.pages.map PagePreview.id) := by
  cases h with
  | toggle i h =>
    refine ⟨rfl, ?_⟩
    intro j hj
    have : (togglePageSelection s i).pages.map PagePreview.id =
        s.pages.map PagePreview.id := by
      show (updAt (fun p => { p with selected := !p.selected }) i s.pages).map
        PagePreview.id = s.pages.map PagePreview.id
      exact map_updAt (fun p => { p with selected := !p.selected })
        PagePreview.id (fun a => rfl) i s.pages
    rw [this] at hj
    exact hj
  | selectAll b h =>
    refine ⟨rfl, ?_⟩
    intro j hj
    have : (selectAllPages s b).pages.map PagePreview.id =
        s.pages.map PagePreview.id := map_id_selectAll s.pages b
    rw [this] at hj
    exact hj
  | move i d h =>
    obtain ⟨hperm, hsrc, _, _, _⟩ := movePage_frame s i d
    exact ⟨hsrc, fun j hj => ((hperm.map PagePreview.id).mem_iff).1 hj⟩
  | delete h => exact deleteSelectedPages_src_ids s
  | rotate angle h =>
    obtain ⟨hsrc, hmap⟩ := rotateSelectedPages_src_ids s angle
    exact ⟨hsrc, fun j hj => by rw [hmap] at hj; exact hj⟩
  | openCrop ok =>
    obtain ⟨hsrc, hpages, _⟩ := openCropAttempt_frame s ok
    exact ⟨hsrc, fun j hj => by rw [hpages] at hj; exact hj⟩
  | closeCrop => exact ⟨rfl, fun j hj => hj⟩
  | commitCrop c dw dh h =>
    obtain ⟨hsrc, hmap⟩ := applyCrop_src_ids s c dw dh
    exact ⟨hsrc, fun j hj => by rw [hmap] at hj; exact hj⟩

/-- Along any chain of user-level steps the collection of original
indices in the store only shrinks. -/
theorem steps_ids {s t : EditorState} (h : Relation.ReflTransGen EditStep s t) :
    ∀ i, i ∈ t.pages.map PagePreview.id → i ∈ s.pages.map PagePreview.id := by
  induction h with
  | refl => exact fun i hi => hi
  | tail hsteps hstep ih =>
    intro i hi
    exact ih i ((editStep_src_ids hstep).2 i hi)

/-- On a successful commit, the target descriptor's slot is rewritten
with the mapped crop rectangle and deselected. -/
theorem applyCrop_target_entry (s : EditorState) (info : CroppingPageInfo)
    (c : PixelRect) (dw dh : ℚ) (hinfo : s.croppingPageInfo = some info)
    (hfound : (findTag info.originalIndex s.pdfDoc).isSome = true) :
    (applyCrop s c dw dh).pages[info.index]? = (s.pages[info.index]?).map fun p =>
      { p with cropBox := some (mappedCropRect info c dw dh), selected := false } := by
  rw [applyCrop_eq s info c dw dh hinfo hfound]
  show (updAt (fun p =>
      { p with cropBox := some (mappedCropRect info c dw dh), selected := false })
      info.index s.pages)[info.index]? = _
  rw [getElem?_updAt, if_pos rfl]

/-- Reordering moves never change the multiset of original indices,
whatever sequence of `movePage` calls is made. -/
theorem foldl_movePage_ids_perm :
    ∀ (ms : List (Nat × MoveDir)) (s : EditorState),
      ((ms.foldl (fun t m => movePage t m.1 m.2) s).pages.map PagePreview.id).Perm
        (s.pages.map PagePreview.id)
  | [], s => List.Perm.refl _
  | m :: rest, s => by
    rw [List.foldl_cons]
    exact (foldl_movePage_ids_perm rest (movePage s m.1 m.2)).trans
      (((movePage_frame s m.1 m.2).1).map PagePreview.id)

/-- The two-page session with the first page selected is reached from a
load of `srcTwo` by toggling position 0. -/
theorem reachable_sTwoOneSel : Reachable srcTwo sTwoOneSel := by
  have h : togglePageSelection (loadState srcTwo) 0 = sTwoOneSel := by decide
  exact h ▸ Reachable.step Reachable.load (EditStep.toggle (loadState srcTwo) 0 rfl)

/-- The one-page session with its page selected is reached from a load
of `srcOne` by toggling position 0. -/
theorem reachable_sOneSel : Reachable srcOne sOneSel := by
  have h : togglePageSelection (loadState srcOne) 0 = sOneSel := by decide
  exact h ▸ Reachable.step Reachable.load (EditStep.toggle (loadState srcOne) 0 rfl)

/-! ### The claims -/

/-- Claim C2: for every store state with at least one descriptor, a
delete whose selected position set covers all positions is rejected and
leaves the state (in particular the descriptor sequence) completely
unchanged; a delete of a proper non-empty subset of positions keeps
exactly the descriptors at the unselected positions, in order
(deselected as a side effect). -/
theorem c2_delete_all_rejected (s : EditorState) :
    ((∀ p ∈ s.pages, p.selected = true) → deleteSelectedPages s = s) ∧
    (0 < s.pages.countP (fun p => p.selected) →
      s.pages.countP (fun p => p.selected) < s.pages.length →
      (deleteSelectedPages s).pages =
        (s.pages.filter (fun p => !p.selected)).map
          (fun p => { p with selected := false })) := by
  constructor
  · intro hall
    exact deleteSelectedPages_rejected s (Or.inr (List.countP_eq_length.2 hall))
  · intro h0 hlt
    exact (deleteSelectedPages_eq s h0 hlt).1

/-- Witness for C2 at concrete states: the all-selected one-page session
is left unchanged, and deleting the selected first page of the two-page
session keeps exactly the unselected second page. -/
theorem c2_delete_all_rejected_witness :
    deleteSelectedPages sOneSel = sOneSel ∧
    (0 < sTwoOneSel.pages.countP (fun p => p.selected) ∧
     sTwoOneSel.pages.countP (fun p => p.selected) < sTwoOneSel.pages.length ∧
     (deleteSelectedPages sTwoOneSel).pages =
       (sTwoOneSel.pages.filter (fun p => !p.selected)).map
         (fun p => { p with selected := false })) :=
  ⟨(c2_delete_all_rejected sOneSel).1 (by decide),
   ⟨by decide, by decide,
    (c2_delete_all_rejected sTwoOneSel).2 (by decide) (by decide)⟩⟩

/-- Claim C8: `movePage` is a no-op at the boundary (position 0 moving
left, the last position moving right), swaps the descriptor with its
immediate neighbour in the interior (a left move is the right move of
the left neighbour), and every sequence of moves preserves the multiset
of original indices. -/
theorem c8_move_swap (s : EditorState) (i : Nat) (ms : List (Nat × MoveDir)) :
    (movePage s 0 MoveDir.left = s) ∧
    (s.pages ≠ [] → movePage s (s.pages.length - 1) MoveDir.right = s) ∧
    (i + 1 < s.pages.length →
      ((movePage s i MoveDir.right).pages[i]? = s.pages[i + 1]? ∧
       (movePage s i MoveDir.right).pages[i + 1]? = s.pages[i]? ∧
       ∀ j, j ≠ i → j ≠ i + 1 →
         (movePage s i MoveDir.right).pages[j]? = s.pages[j]?)) ∧
    (i ≠ 0 → movePage s i MoveDir.left = movePage s (i - 1) MoveDir.right) ∧
    ((ms.foldl (fun t m => movePage t m.1 m.2) s).pages.map PagePreview.id).Perm
      (s.pages.map PagePreview.id) := by
  refine ⟨?_, ?_, ?_, ?_, foldl_movePage_ids_perm ms s⟩
  · rw [movePage, if_pos (Or.inl rfl)]
  · intro hne
    have hlen : 0 < s.pages.length := List.length_pos.2 hne
    rw [movePage, if_pos (by omega)]
  · intro hlt
    rw [movePage, if_neg (by omega : ¬ s.pages.length ≤ i + 1)]
    refine ⟨?_, ?_, ?_⟩
    · show (swapAt i s.pages)[i]? = s.pages[i + 1]?
      rw [getElem?_swapAt i s.pages i hlt, if_pos rfl]
    · show (swapAt i s.pages)[i + 1]? = s.pages[i]?
      rw [getElem?_swapAt i s.pages (i + 1) hlt, if_neg (by omega), if_pos rfl]
    · intro j hji hji1
      show (swapAt i s.pages)[j]? = s.pages[j]?
      rw [getElem?_swapAt i s.pages j hlt, if_neg hji, if_neg hji1]
  · intro h0
    rw [movePage, movePage]
    by_cases hb : s.pages.length ≤ i
    · rw [if_pos (Or.inr hb), if_pos (by omega)]
    · rw [if_neg (by omega : ¬ (i = 0 ∨ s.pages.length ≤ i)),
        if_neg (by omega : ¬ s.pages.length ≤ i - 1 + 1)]

/-- Witness for C8 at the concrete two-page session: moving the last
page right is a no-op, moving position 0 right swaps the two
descriptors, and a sequence of moves permutes no original index away. -/
theorem c8_move_swap_witness :
    (movePage sTwoOneSel 0 MoveDir.left = sTwoOneSel) ∧
    (movePage sTwoOneSel 1 MoveDir.right = sTwoOneSel) ∧
    ((movePage sTwoOneSel 0 MoveDir.right).pages[0]? = sTwoOneSel.pages[1]?) ∧
    ((([(0, MoveDir.right), (0, MoveDir.left)] : List (Nat × MoveDir)).foldl
      (fun t m => movePage t m.1 m.2) sTwoOneSel).pages.map PagePreview.id).Perm
      (sTwoOneSel.pages.map PagePreview.id) := by
  have h := c8_move_swap sTwoOneSel 0 [(0, MoveDir.right), (0, MoveDir.left)]
  have h1 := c8_move_swap sTwoOneSel 1 ([] : List (Nat × MoveDir))
  exact ⟨h.1, h1.2.1 (by decide), (h.2.2.1 (by decide)).1, h.2.2.2.2⟩

/-- Claim C9: an attempt to open a crop session succeeds only when
exactly one descriptor is selected and no session is open; otherwise the
attempt is rejected and both the descriptor store and the existing
session state are unchanged.  On success (with the rasterisation
succeeding) the session records the selected descriptor. -/
theorem c9_open_crop_guard (s : EditorState) (ok : Bool) :
    ((s.pages.countP (fun p => p.selected) ≠ 1 ∨ s.isCropping = true) →
      openCropAttempt s ok = s) ∧
    (s.pages.countP (fun p => p.selected) = 1 → s.isCropping = false → ok = true →
      ∃ (idx : Nat) (p : PagePreview), s.pages[idx]? = some p ∧ p.selected = true ∧
        openCropAttempt s ok =
          { s with isCropping := true,
                   croppingPageInfo := some ⟨idx, p.id, p.width, p.height⟩ }) := by
  have hlen : (getSelectedCurrentIndices s.pages).length =
      s.pages.countP (fun p => p.selected) := length_selectedIndicesFrom s.pages 0
  constructor
  · rintro (hcount | hcrop)
    · by_cases hc : s.isCropping
      · simp only [openCropAttempt, if_pos hc]
      · cases hsel : getSelectedCurrentIndices s.pages with
        | nil => simp only [openCropAttempt, if_neg hc, hsel]
        | cons idx rest =>
          cases rest with
          | nil =>
            rw [hsel] at hlen
            exact absurd hlen.symm hcount
          | cons b bs => simp only [openCropAttempt, if_neg hc, hsel]
    · simp only [openCropAttempt, if_pos hcrop]
  · intro hcount hcrop hok
    subst hok
    cases hsel : getSelectedCurrentIndices s.pages with
    | nil =>
      rw [hsel] at hlen
      rw [← hlen] at hcount
      simp at hcount
    | cons idx rest =>
      cases rest with
      | cons b bs =>
        rw [hsel] at hlen
        rw [← hlen] at hcount
        simp at hcount
      | nil =>
        have hidx : idx ∈ getSelectedCurrentIndices s.pages := by
          rw [hsel]
          exact List.mem_cons_self _ _
        obtain ⟨p, hp, hpsel⟩ := mem_getSelectedCurrentIndices.1 hidx
        refine ⟨idx, p, hp, hpsel, ?_⟩
        have hnc : ¬ (s.isCropping = true) := by
          rw [hcrop]
          exact Bool.false_ne_true
        simp only [openCropAttempt, if_neg hnc, hsel, hp]
        rw [if_pos trivial]

/-- Witness for C9: with no page selected the attempt leaves the
one-page session unchanged after deselecting; with exactly one page
selected and no open session, the attempt opens a session on it. -/
theorem c9_open_crop_guard_witness :
    (openCropAttempt (loadState srcOne) true = loadState srcOne) ∧
    (∃ (idx : Nat) (p : PagePreview), sTwoOneSel.pages[idx]? = some p ∧
      p.selected = true ∧
      openCropAttempt sTwoOneSel true =
        { sTwoOneSel with isCropping := true,
                          croppingPageInfo := some ⟨idx, p.id, p.width, p.height⟩ }) :=
  ⟨(c9_open_crop_guard (loadState srcOne) true).1 (Or.inl (by decide)),
   (c9_open_crop_guard sTwoOneSel true).2 (by decide) (by decide) rfl⟩

/-- Claim C10 (implicit): a save attempt, successful or failed, leaves
the whole editor state (in particular every descriptor's order, original
index, size, rotation, crop and selection) unchanged, and the produced
output is a function of the source bytes and the descriptor sequence
alone. -/
theorem c10_save_readonly (s s₁ s₂ : EditorState) (o₁ o₂ : List OutPage) :
    ((saveChanges s).2 = s) ∧
    (s₁.src = s₂.src → s₁.pages = s₂.pages →
      (saveChanges s₁).1 = some o₁ → (saveChanges s₂).1 = some o₂ → o₁ = o₂) := by
  constructor
  · rw [saveChanges]
    by_cases hc : s.isCropping
    · rw [if_pos hc]
    · rw [if_neg hc]
  · intro hsrc hpages h1 h2
    rw [saveChanges] at h1
    rw [saveChanges] at h2
    by_cases hc1 : s₁.isCropping
    · rw [if_pos hc1] at h1
      exact absurd h1 (by simp)
    · rw [if_neg hc1] at h1
      by_cases hc2 : s₂.isCropping
      · rw [if_pos hc2] at h2
        exact absurd h2 (by simp)
      · rw [if_neg hc2] at h2
        replace h1 : buildOutput s₁.src s₁.pages = some o₁ := h1
        replace h2 : buildOutput s₂.src s₂.pages = some o₂ := h2
        rw [hsrc, hpages] at h1
        rw [h1] at h2
        exact Option.some_inj.1 h2

/-- Witness for C10 at the loaded one-page session: the state is
untouched and the output of two saves from equal source and descriptors
agree. -/
theorem c10_save_readonly_witness :
    (saveChanges (loadState srcOne)).2 = loadState srcOne ∧
    ([⟨0, 600, 800, 0, none⟩] : List OutPage) = [⟨0, 600, 800, 0, none⟩] :=
  ⟨(c10_save_readonly (loadState srcOne) (loadState srcOne) (loadState srcOne)
      [] []).1,
   (c10_save_readonly (loadState srcOne) (loadState srcOne) (loadState srcOne)
      [⟨0, 600, 800, 0, none⟩] [⟨0, 600, 800, 0, none⟩]).2 rfl rfl
      (by decide) (by decide)⟩

/-- The committed crop of the target descriptor is exactly the mapped
rectangle. -/
theorem applyCrop_cropBox (s : EditorState) (info : CroppingPageInfo)
    (c : PixelRect) (dw dh : ℚ) (hinfo : s.croppingPageInfo = some info)
    (hfound : (findTag info.originalIndex s.pdfDoc).isSome = true)
    (hidx : info.index < s.pages.length) :
    ((applyCrop s c dw dh).pages[info.index]?).map PagePreview.cropBox =
      some (some (mappedCropRect info c dw dh)) := by
  rw [applyCrop_target_entry s info c dw dh hinfo hfound]
  obtain ⟨p, hp⟩ : ∃ p, s.pages[info.index]? = some p :=
    ⟨s.pages[info.index], List.getElem?_eq_some.2 ⟨hidx, rfl⟩⟩
  rw [hp, Option.map_some', Option.map_some']

/-- Claim C3: the committed document-space crop rectangle of a pixel
rectangle `c` on a preview of pixel size `dw x dh` of a page of document
size `W x H` is `(c.x * (W / dw), H - (c.y + c.height) * (H / dh),
c.width * (W / dw), c.height * (H / dh))` — the pixel origin (top-left)
flipped to the document origin (bottom-left). -/
theorem c3_crop_coordinate_mapping (s : EditorState) (info : CroppingPageInfo)
    (c : PixelRect) (dw dh : ℚ) (hinfo : s.croppingPageInfo = some info)
    (hfound : (findTag info.originalIndex s.pdfDoc).isSome = true)
    (hidx : info.index < s.pages.length) :
    ((applyCrop s c dw dh).pages[info.index]?).map PagePreview.cropBox =
      some (some ⟨c.x * (info.originalWidth / dw),
        info.originalHeight - (c.y + c.height) * (info.originalHeight / dh),
        c.width * (info.originalWidth / dw),
        c.height * (info.originalHeight / dh)⟩) :=
  applyCrop_cropBox s info c dw dh hinfo hfound hidx

/-- Witness for C3, the scenario from the specification: a 600 x 800 pt
page previewed at 300 x 400 px; the pixel rectangle (30, 40, 150, 100)
commits the document rectangle (60, 520, 300, 200). -/
theorem c3_crop_coordinate_mapping_witness :
    sCropSession.croppingPageInfo = some ⟨0, 0, 600, 800⟩ ∧
    (findTag 0 sCropSession.pdfDoc).isSome = true ∧
    (0 : Nat) < sCropSession.pages.length ∧
    ((applyCrop sCropSession ⟨30, 40, 150, 100⟩ 300 400).pages[0]?).map
      PagePreview.cropBox = some (some ⟨60, 520, 300, 200⟩) :=
  ⟨rfl, rfl, by decide,
   (c3_crop_coordinate_mapping sCropSession ⟨0, 0, 600, 800⟩ ⟨30, 40, 150, 100⟩
      300 400 rfl rfl (by decide)).trans (by norm_num)⟩

/-- Counterexample to claim C4 as stated: the crop commit performs no
bounds validation.  On the 600 x 800 pt page previewed at 300 x 400 px,
the pixel rectangle (0, 0, 400, 500) maps to the document rectangle
(0, -200, 800, 1000), which violates both `docY >= 0` and
`docX + docWidth <= 600`; the commit nevertheless succeeds and stores
this rectangle on the target descriptor instead of failing. -/
theorem c4_counterexample :
    ((applyCrop sCropSession ⟨0, 0, 400, 500⟩ 300 400).pages[0]?).map
      PagePreview.cropBox = some (some ⟨0, -200, 800, 1000⟩) ∧
    ¬ ((0 : ℚ) + 800 ≤ 600) ∧ ¬ ((0 : ℚ) ≤ -200) := by
  refine ⟨?_, by norm_num, by norm_num⟩
  have h := applyCrop_target_entry sCropSession ⟨0, 0, 600, 800⟩ ⟨0, 0, 400, 500⟩
    300 400 rfl rfl
  rw [h]
  have hp : sCropSession.pages[0]? = some ⟨0, true, 600, 800, 0, none⟩ := rfl
  rw [hp, Option.map_some', Option.map_some', Option.some_inj, Option.some_inj]
  norm_num [mappedCropRect]

/-- Claim C4, amended: the crop commit performs no validation of the
mapped rectangle — it stores the computed rectangle on the target
descriptor as-is, even when it is out of bounds, and never clamps (see
the counterexample).  What does hold is that every pixel rectangle lying
within the preview bounds maps to a document rectangle within the page
bounds. -/
theorem c4_crop_bounds_amended (s : EditorState) (info : CroppingPageInfo)
    (c : PixelRect) (dw dh : ℚ) (hinfo : s.croppingPageInfo = some info)
    (hfound : (findTag info.originalIndex s.pdfDoc).isSome = true)
    (hidx : info.index < s.pages.length)
    (hx : 0 ≤ c.x) (hy : 0 ≤ c.y)
    (hxw : c.x + c.width ≤ dw) (hyh : c.y + c.height ≤ dh)
    (hdw : 0 < dw) (hdh : 0 < dh)
    (hW : 0 ≤ info.originalWidth) (hH : 0 ≤ info.originalHeight) :
    ((applyCrop s c dw dh).pages[info.index]?).map PagePreview.cropBox =
      some (some (mappedCropRect info c dw dh)) ∧
    0 ≤ (mappedCropRect info c dw dh).x ∧
    0 ≤ (mappedCropRect info c dw dh).y ∧
    (mappedCropRect info c dw dh).x + (mappedCropRect info c dw dh).width ≤
      info.originalWidth ∧
    (mappedCropRect info c dw dh).y + (mappedCropRect info c dw dh).height ≤
      info.originalHeight := by
  have hdw' : dw ≠ 0 := ne_of_gt hdw
  have hdh' : dh ≠ 0 := ne_of_gt hdh
  have hkW : dw * (info.originalWidth / dw) = info.originalWidth := by
    field_simp
  have hkH : dh * (info.originalHeight / dh) = info.originalHeight := by
    field_simp
  have hWd : 0 ≤ info.originalWidth / dw := div_nonneg hW hdw.le
  have hHd : 0 ≤ info.originalHeight / dh := div_nonneg hH hdh.le
  refine ⟨applyCrop_cropBox s info c dw dh hinfo hfound hidx, ?_, ?_, ?_, ?_⟩
  · exact mul_nonneg hx hWd
  · show 0 ≤ info.originalHeight - (c.y + c.height) * (info.originalHeight / dh)
    have hyb : (c.y + c.height) * (info.originalHeight / dh) ≤
        dh * (info.originalHeight / dh) := mul_le_mul_of_nonneg_right hyh hHd
    linarith
  · show c.x * (info.originalWidth / dw) + c.width * (info.originalWidth / dw) ≤
      info.originalWidth
    have hexp : (c.x + c.width) * (info.originalWidth / dw) =
        c.x * (info.originalWidth / dw) + c.width * (info.originalWidth / dw) := by
      ring
    have hxb : (c.x + c.width) * (info.originalWidth / dw) ≤
        dw * (info.originalWidth / dw) := mul_le_mul_of_nonneg_right hxw hWd
    linarith
  · show info.originalHeight - (c.y + c.height) * (info.originalHeight / dh) +
      c.height * (info.originalHeight / dh) ≤ info.originalHeight
    have hexp : (c.y + c.height) * (info.originalHeight / dh) =
        c.y * (info.originalHeight / dh) + c.height * (info.originalHeight / dh) := by
      ring
    have hyb : 0 ≤ c.y * (info.originalHeight / dh) := mul_nonneg hy hHd
    linarith

/-- Witness for C4 (amended) at the concrete crop session: the in-bounds
pixel rectangle (30, 40, 150, 100) commits and its mapped rectangle lies
within the 600 x 800 page. -/
theorem c4_crop_bounds_amended_witness :
    ((applyCrop sCropSession ⟨30, 40, 150, 100⟩ 300 400).pages[0]?).map
      PagePreview.cropBox =
      some (some (mappedCropRect ⟨0, 0, 600, 800⟩ ⟨30, 40, 150, 100⟩ 300 400)) ∧
    0 ≤ (mappedCropRect ⟨0, 0, 600, 800⟩ ⟨30, 40, 150, 100⟩ 300 400).x ∧
    0 ≤ (mappedCropRect ⟨0, 0, 600, 800⟩ ⟨30, 40, 150, 100⟩ 300 400).y ∧
    (mappedCropRect ⟨0, 0, 600, 800⟩ ⟨30, 40, 150, 100⟩ 300 400).x +
      (mappedCropRect ⟨0, 0, 600, 800⟩ ⟨30, 40, 150, 100⟩ 300 400).width ≤ 600 ∧
    (mappedCropRect ⟨0, 0, 600, 800⟩ ⟨30, 40, 150, 100⟩ 300 400).y +
      (mappedCropRect ⟨0, 0, 600, 800⟩ ⟨30, 40, 150, 100⟩ 300 400).height ≤ 800 :=
  c4_crop_bounds_amended sCropSession ⟨0, 0, 600, 800⟩ ⟨30, 40, 150, 100⟩ 300 400
    rfl rfl (by decide) (by norm_num) (by norm_num) (by norm_num) (by norm_num)
    (by norm_num) (by norm_num) (by norm_num) (by norm_num)

/-- Counterexample to claim C6 as stated: rotation and crop commits do
mutate the live parsed document object.  Rotating the selected page of
the one-page session changes `pdfDoc` (the page's rotation is written
through `setRotation`), and committing a crop changes `pdfDoc` as well
(through `setCropBox`). -/
theorem c6_counterexample :
    (rotateSelectedPages sOneSel 90).pdfDoc ≠ sOneSel.pdfDoc ∧
    (applyCrop sCropSession ⟨0, 0, 300, 400⟩ 300 400).pdfDoc ≠
      sCropSession.pdfDoc := by
  constructor
  · decide
  · intro h
    have h0 : (applyCrop sCropSession ⟨0, 0, 300, 400⟩ 300 400).pdfDoc =
        [⟨0, 0, some (mappedCropRect ⟨0, 0, 600, 800⟩ ⟨0, 0, 300, 400⟩ 300 400)⟩] := by
      rw [applyCrop_eq sCropSession ⟨0, 0, 600, 800⟩ ⟨0, 0, 300, 400⟩ 300 400 rfl rfl]
      rfl
    rw [h0] at h
    have : (some (mappedCropRect ⟨0, 0, 600, 800⟩ ⟨0, 0, 300, 400⟩ 300 400) :
        Option CropBoxRect) = none := congrArg DocPage.cropBox (List.head_eq_of_cons_eq h)
    exact Option.some_ne_none _ this

/-- Claim C6, amended: rotation and crop edits mutate the descriptor
fields and the corresponding pages of the live parsed document object
(`setRotation` / `setCropBox`), but never the original source bytes, and
they neither add, remove nor re-identify pages anywhere — the source,
the descriptors' original indices and the live document's page tags are
all preserved.  (The counterexample shows the "live parsed document
object is left unchanged" part of the original claim is false.) -/
theorem c6_staged_only_amended (s : EditorState) (angle : Int) (c : PixelRect)
    (dw dh : ℚ) :
    (rotateSelectedPages s angle).src = s.src ∧
    (rotateSelectedPages s angle).pages.map PagePreview.id =
      s.pages.map PagePreview.id ∧
    (rotateSelectedPages s angle).pdfDoc.map DocPage.tag =
      s.pdfDoc.map DocPage.tag ∧
    (applyCrop s c dw dh).src = s.src ∧
    (applyCrop s c dw dh).pages.map PagePreview.id = s.pages.map PagePreview.id ∧
    (applyCrop s c dw dh).pdfDoc.map DocPage.tag = s.pdfDoc.map DocPage.tag := by
  obtain ⟨hrs, hri⟩ := rotateSelectedPages_src_ids s angle
  obtain ⟨has, hai⟩ := applyCrop_src_ids s c dw dh
  refine ⟨hrs, hri, ?_, has, hai, ?_⟩
  · rw [rotateSelectedPages]
    by_cases h0 : (getSelectedCurrentIndices s.pages).length = 0
    · rw [if_pos h0]
    · rw [if_neg h0]
      exact (rotate_foldl_frame angle s.pages (getSelectedCurrentIndices s.pages)
        s.pdfDoc s.pages).1
  · cases hinfo : s.croppingPageInfo with
    | none => rw [applyCrop_noSession s c dw dh hinfo]
    | some info =>
      cases hfound : findTag info.originalIndex s.pdfDoc with
      | none => rw [applyCrop_notFound s info c dw dh hinfo hfound]
      | some qf =>
        rw [applyCrop_eq s info c dw dh hinfo (by rw [hfound]; rfl)]
        exact setCropFirstTag_map_tag info.originalIndex
          (mappedCropRect info c dw dh) s.pdfDoc

/-- Counterexample to claim C7 as stated: `movePage` does not clear the
`selected` flag of the descriptors it moves.  Moving the selected first
page of the two-page session to the right leaves that descriptor (now at
position 1, still original index 0) selected. -/
theorem c7_counterexample :
    ((movePage sTwoOneSel 0 MoveDir.right).pages[1]?).map PagePreview.selected =
      some true ∧
    ((movePage sTwoOneSel 0 MoveDir.right).pages[1]?).map PagePreview.id =
      some 0 := by
  exact ⟨by decide, by decide⟩

/-- Claim C7, amended: delete, rotate and the crop commit clear
`selected` on the descriptors they affect (delete deselects all
survivors), and only `toggleSelection`/`selectAll` set it; `movePage`,
however, moves the descriptor records unchanged — selected flags travel
with them (see the counterexample) — so reordering preserves every
descriptor, selection flag included. -/
theorem c7_mutations_deselect_amended (src : List SrcPage) (s : EditorState)
    (hreach : Reachable src s) (angle : Int) (i : Nat) (d : MoveDir)
    (c : PixelRect) (dw dh : ℚ) (info : CroppingPageInfo) :
    (0 < s.pages.countP (fun p => p.selected) →
      s.pages.countP (fun p => p.selected) < s.pages.length →
      ∀ p ∈ (deleteSelectedPages s).pages, p.selected = false) ∧
    (∀ (j : Nat) (p : PagePreview), s.pages[j]? = some p → p.selected = true →
      ((rotateSelectedPages s angle).pages[j]?).map PagePreview.selected =
        some false) ∧
    (s.croppingPageInfo = some info →
      (findTag info.originalIndex s.pdfDoc).isSome = true →
      info.index < s.pages.length →
      ((applyCrop s c dw dh).pages[info.index]?).map PagePreview.selected =
        some false) ∧
    ((movePage s i d).pages.Perm s.pages) := by
  obtain ⟨h1, h2, h3, h4⟩ := reachable_inv hreach
  refine ⟨?_, ?_, ?_, (movePage_frame s i d).1⟩
  · intro h0 hlt p hp
    rw [(deleteSelectedPages_eq s h0 hlt).1] at hp
    obtain ⟨q, _, hqp⟩ := List.mem_map.1 hp
    rw [← hqp]
  · intro j p hp hpsel
    obtain ⟨hSel, _, _, _, _, _, _⟩ := rotateSelectedPages_spec s angle h3 h4
    rw [hSel j p hp hpsel, Option.map_some']
  · intro hinfo hfound hidx
    rw [applyCrop_target_entry s info c dw dh hinfo hfound]
    obtain ⟨p, hp⟩ : ∃ p, s.pages[info.index]? = some p :=
      ⟨s.pages[info.index], List.getElem?_eq_some.2 ⟨hidx, rfl⟩⟩
    rw [hp, Option.map_some', Option.map_some']

/-- Witness for C7 (amended) at the reachable two-page session with its
first page selected: deleting deselects all survivors, rotating
deselects the rotated page, and a move permutes the descriptor records. -/
theorem c7_mutations_deselect_amended_witness :
    (0 < sTwoOneSel.pages.countP (fun p => p.selected) ∧
     sTwoOneSel.pages.countP (fun p => p.selected) < sTwoOneSel.pages.length ∧
     ∀ p ∈ (deleteSelectedPages sTwoOneSel).pages, p.selected = false) ∧
    ((rotateSelectedPages sTwoOneSel 90).pages[0]?).map PagePreview.selected =
      some false ∧
    ((movePage sTwoOneSel 0 MoveDir.right).pages.Perm sTwoOneSel.pages) := by
  have h := c7_mutations_deselect_amended srcTwo sTwoOneSel reachable_sTwoOneSel
    90 0 MoveDir.right ⟨0, 0, 0, 0⟩ 1 1 ⟨0, 0, 600, 800⟩
  exact ⟨⟨by decide, by decide, h.1 (by decide) (by decide)⟩,
    h.2.1 0 ⟨0, true, 600, 800, 0, none⟩ rfl rfl, h.2.2.2⟩

/-- Counterexample to claim C5 as stated: the claim quantifies over
every integer delta, but the code computes the JavaScript `%` (truncated
remainder).  Rotating the selected page (rotation 0) of the one-page
session by 45 stores 45, which is outside `{0, 90, 180, 270}`; rotating
it by -90 stores -90, not `(0 + -90) mod 360 = 270`. -/
theorem c5_counterexample :
    ((rotateSelectedPages sOneSel 45).pages[0]?).map PagePreview.rotation =
      some 45 ∧
    (45 : Int) ∉ ([0, 90, 180, 270] : List Int) ∧
    ((rotateSelectedPages sOneSel (-90)).pages[0]?).map PagePreview.rotation =
      some (-90) ∧
    ((0 : Int) + (-90)) % 360 = 270 := by
  exact ⟨by decide, by decide, by decide, by decide⟩

/-- Claim C5, amended: for every reachable state and nonnegative
deltaDegrees, rotate sets each selected descriptor's rotation to
`(rotation + delta) mod 360` (for nonnegative operands JavaScript `%`
agrees with the mathematical mod), and when delta is additionally a
multiple of 90 the result lies in `{0, 90, 180, 270}` provided the
previous value did.  (For negative deltas the code stores the negative
JavaScript remainder, and for deltas that are not multiples of 90 the
result leaves the set — see the counterexample.) -/
theorem c5_rotate_mod_amended (src : List SrcPage) (s : EditorState)
    (hreach : Reachable src s) (angle : Int) (hpos : 0 ≤ angle) :
    ∀ (j : Nat) (p : PagePreview), s.pages[j]? = some p → p.selected = true →
      p.rotation ∈ ([0, 90, 180, 270] : List Int) →
      ((rotateSelectedPages s angle).pages[j]?).map PagePreview.rotation =
        some ((p.rotation + angle) % 360) ∧
      ((90 : Int) ∣ angle →
        ((p.rotation + angle) % 360) ∈ ([0, 90, 180, 270] : List Int)) := by
  obtain ⟨h1, h2, h3, h4⟩ := reachable_inv hreach
  intro j p hp hpsel hpr
  obtain ⟨hSel, _, _, _, _, _, _⟩ := rotateSelectedPages_spec s angle h3 h4
  have hpr' : p.rotation = 0 ∨ p.rotation = 90 ∨ p.rotation = 180 ∨
      p.rotation = 270 := by
    simpa using hpr
  have hr0 : 0 ≤ p.rotation := by
    rcases hpr' with h | h | h | h <;> omega
  constructor
  · rw [hSel j p hp hpsel, Option.map_some']
    show some ((p.rotation + angle).tmod 360) = some ((p.rotation + angle) % 360)
    rw [Int.tmod_eq_emod (by omega) (by norm_num)]
  · intro hdvd
    have hdr : (90 : Int) ∣ p.rotation := by
      rcases hpr' with h | h | h | h <;> rw [h] <;> decide
    have hsum : (90 : Int) ∣ (p.rotation + angle) := hdr.add hdvd
    have h90 : (90 : Int) ∣ (p.rotation + angle) % 360 := by
      rw [Int.emod_def]
      exact Int.dvd_sub hsum ((by norm_num : (90 : Int) ∣ 360).mul_right _)
    have hge : 0 ≤ (p.rotation + angle) % 360 := Int.emod_nonneg _ (by norm_num)
    have hltm : (p.rotation + angle) % 360 < 360 :=
      Int.emod_lt_of_pos _ (by norm_num)
    obtain ⟨u, hu⟩ := h90
    have hub : u = 0 ∨ u = 1 ∨ u = 2 ∨ u = 3 := by omega
    rw [hu]
    rcases hub with rfl | rfl | rfl | rfl <;> decide

/-- Witness for C5 (amended) at the reachable two-page session: rotating
the selected page (rotation 0) by 90 stores `(0 + 90) mod 360 = 90`,
which lies in `{0, 90, 180, 270}`. -/
theorem c5_rotate_mod_amended_witness :
    ((rotateSelectedPages sTwoOneSel 90).pages[0]?).map PagePreview.rotation =
      some (((0 : Int) + 90) % 360) ∧
    (((0 : Int) + 90) % 360) ∈ ([0, 90, 180, 270] : List Int) := by
  have h := c5_rotate_mod_amended srcTwo sTwoOneSel reachable_sTwoOneSel 90
    (by decide) 0 ⟨0, true, 600, 800, 0, none⟩ rfl rfl (by decide)
  exact ⟨h.1, h.2 (by decide)⟩

/-- Claim C1: for every state reachable by a load followed by any
sequence of edits (with no crop session open, which blocks the save
button), saving succeeds and builds the output by iterating the
descriptor sequence in display order — the `j`-th output page is the
page at the `j`-th descriptor's original index of a freshly parsed copy
of the original source, carrying that descriptor's rotation and crop —
so the output page count equals the descriptor count, the output's
original indices are exactly the descriptors' ones, the output is
independent of the mutated live document, and after a successful delete
no removed descriptor's original index ever appears in the output of any
later save. -/
theorem c1_save_rebuild (src : List SrcPage) (s : EditorState)
    (hreach : Reachable src s) (hnc : s.isCropping = false) :
    (∃ out, (saveChanges s).1 = some out ∧
      out.length = s.pages.length ∧
      (∀ (j : Nat) (q : PagePreview), s.pages[j]? = some q →
        ∃ sp, s.src[q.id]? = some sp ∧
          out[j]? = some ⟨q.id, sp.width, sp.height, q.rotation, q.cropBox⟩) ∧
      out.map OutPage.origIndex = s.pages.map PagePreview.id) ∧
    (∀ doc', (saveChanges { s with pdfDoc := doc' }).1 = (saveChanges s).1) ∧
    (0 < s.pages.countP (fun p => p.selected) →
      s.pages.countP (fun p => p.selected) < s.pages.length →
      ∀ p ∈ s.pages, p.selected = true →
      ∀ s₂, Relation.ReflTransGen EditStep (deleteSelectedPages s) s₂ →
      ∀ out₂, (saveChanges s₂).1 = some out₂ →
        p.id ∉ out₂.map OutPage.origIndex) := by
  obtain ⟨h1, h2, h3, h4⟩ := reachable_inv hreach
  have hnc' : ¬ (s.isCropping = true) := by
    rw [hnc]
    exact Bool.false_ne_true
  have hdocfree : ∀ doc', (saveChanges { s with pdfDoc := doc' }).1 =
      (saveChanges s).1 := by
    intro doc'
    rw [saveChanges, saveChanges]
    by_cases hc : s.isCropping = true
    · rw [if_pos hc, if_pos hc]
    · rw [if_neg hc, if_neg hc]
  refine ⟨?_, hdocfree, ?_⟩
  · have h2' : ∀ p ∈ s.pages, p.id < s.src.length := by
      rw [h1]
      exact h2
    obtain ⟨out, ho1, ho2, ho3⟩ := buildOutput_eq_some s.src s.pages h2'
    refine ⟨out, ?_, ho2, ho3, buildOutput_map_origIndex s.src s.pages out ho1⟩
    rw [saveChanges, if_neg hnc']
    exact ho1
  · intro h0 hlt p hp hpsel s₂ hsteps out₂ hsave
    have hpid_not : p.id ∉ (deleteSelectedPages s).pages.map PagePreview.id := by
      rw [(deleteSelectedPages_eq s h0 hlt).1, map_id_deselect]
      intro hmem
      obtain ⟨q, hq, hqid⟩ := List.mem_map.1 hmem
      obtain ⟨hqmem, hqsel⟩ := List.mem_filter.1 hq
      obtain ⟨jq, hjq⟩ := List.mem_iff_getElem?.1 hqmem
      obtain ⟨jp, hjp⟩ := List.mem_iff_getElem?.1 hp
      by_cases hje : jq = jp
      · subst hje
        have hqp : q = p := Option.some_inj.1 (hjq.symm.trans hjp)
        subst hqp
        rw [hpsel] at hqsel
        simp at hqsel
      · exact (ids_distinct_of_nodup h3 hje hjq hjp hqid).elim
    have hnot2 : p.id ∉ s₂.pages.map PagePreview.id :=
      fun hmem => hpid_not (steps_ids hsteps p.id hmem)
    have hout : out₂.map OutPage.origIndex = s₂.pages.map PagePreview.id := by
      rw [saveChanges] at hsave
      by_cases hc : s₂.isCropping
      · rw [if_pos hc] at hsave
        exact absurd hsave (by simp)
      · rw [if_neg hc] at hsave
        replace hsave : buildOutput s₂.src s₂.pages = some out₂ := hsave
        exact buildOutput_map_origIndex s₂.src s₂.pages out₂ hsave
    rw [hout]
    exact hnot2

/-- Witness for C1 at the freshly loaded two-page session. -/
theorem c1_save_rebuild_witness :
    (loadState srcTwo).isCropping = false ∧
    (∃ out, (saveChanges (loadState srcTwo)).1 = some out ∧
      out.length = (loadState srcTwo).pages.length ∧
      (∀ (j : Nat) (q : PagePreview), (loadState srcTwo).pages[j]? = some q →
        ∃ sp, (loadState srcTwo).src[q.id]? = some sp ∧
          out[j]? = some ⟨q.id, sp.width, sp.height, q.rotation, q.cropBox⟩) ∧
      out.map OutPage.origIndex = (loadState srcTwo).pages.map PagePreview.id) :=
  ⟨rfl, (c1_save_rebuild srcTwo (loadState srcTwo) Reachable.load rfl).1⟩

end FileForge
